import Mathlib

/-!
Shallow embedding of the ts-ucan core: capability model, token builder,
token codec and single-layer validator, with theorems checking the
natural-language specification against the code.

Sources embedded:
- `src/src/capability/types.ts`, `src/src/capability/ability.ts` (capability model)
- `src/unnamed/part_001` (isSameAbility / joinAbilitySegments)
- `src/unnamed/part_002` (resource-pointer constructors)
- `src/unnamed/part_000` (token build / encode / parse / validate)

JavaScript integers are modelled as `Int`, strings as Lean `String`,
decoded JSON values as the `JsValue` inductive, thrown exceptions as
`Except` errors.
-/

namespace TsUcan

/-! ### JS value model

`JsValue` models the JavaScript values that appear as decoded JSON
(`unknown` in the TypeScript source): null, booleans, numbers (integral
only — every numeric field of the token format is an integer), strings,
arrays and plain objects with insertion-ordered fields. -/

inductive JsValue where
  | null
  | bool (flag : Bool)
  | num (value : Int)
  | str (text : String)
  | arr (items : List JsValue)
  | obj (entries : List (String × JsValue))

/-- `SUPERUSER` from `src/src/capability/types.ts`:
`export const SUPERUSER: Superuser = "*"` — in the source it is the plain
string `"*"`, modelled here as the JS string value `"*"`. -/
def SUPERUSER : JsValue := .str "*"

/-- Modelled from the spec: `util.isRecord` (`src/util.ts` is not under
`src/`). JS `typeof obj === "object" && obj !== null`, which holds for
plain objects (and arrays; arrays carry no named properties in this
model, so keeping them out of the record case is observationally
irrelevant for the functions below). -/
def isRecord : JsValue → Bool
  | .obj _ => true
  | .arr _ => true
  | _ => false

/-- Modelled from the spec: `util.hasProp` (`src/util.ts` is not under
`src/`). JS `prop in obj` for plain objects. -/
def hasProp (v : JsValue) (key : String) : Bool :=
  match v with
  | .obj fields => fields.any (fun f => f.1 == key)
  | _ => false

/-- JS property access `obj[key]` on a plain object (first matching key;
the objects built by this library never repeat a key). -/
def getProp (v : JsValue) (key : String) : Option JsValue :=
  match v with
  | .obj fields => fields.lookup key
  | _ => none

/-- JS `typeof v === "string"`. -/
def isString : JsValue → Bool
  | .str _ => true
  | _ => false

/-- JS `Array.isArray(v)`. -/
def isArray : JsValue → Bool
  | .arr _ => true
  | _ => false

/-- JS strict equality `v === SUPERUSER`: since `SUPERUSER` is the string
`"*"`, this is string comparison with `"*"` (`isSuperuser` in
`src/src/capability/types.ts`). -/
def isSuperuser : JsValue → Bool
  | .str s => s == "*"
  | _ => false

/-- `isAbility` from `src/src/capability/types.ts`:
`obj === SUPERUSER || (isRecord obj && hasProp obj "namespace" &&
typeof obj.namespace === "string" && hasProp obj "segments" &&
Array.isArray(obj.segments))`. -/
def isAbility (obj : JsValue) : Bool :=
  isSuperuser obj
  || (isRecord obj
      && hasProp obj "namespace"
      && (match getProp obj "namespace" with
          | some v => isString v
          | none => false)
      && hasProp obj "segments"
      && (match getProp obj "segments" with
          | some v => isArray v
          | none => false))

/-- `isResourcePointer` from `src/src/capability/types.ts`. -/
def isResourcePointerJs (obj : JsValue) : Bool :=
  isRecord obj
  && hasProp obj "scheme"
  && (match getProp obj "scheme" with
      | some v => isString v
      | none => false)
  && hasProp obj "hierPart"
  && (match getProp obj "hierPart" with
      | some v => isSuperuser v || isString v
      | none => false)

/-! ### Typed capability model

From `src/src/capability/types.ts`:
`type Ability = Superuser | { namespace: string, segments: string[] }`.
The `Superuser` alternative is the sentinel string `"*"`. -/

inductive Ability where
  | superuser
  | structured (namespace_ : String) (segments : List String)
deriving DecidableEq

/-- In TypeScript `hierPart : Superuser | string`; since `Superuser` is the
string type `"*"`, the union collapses to `string`. -/
structure ResourcePointer where
  scheme : String
  hierPart : String
deriving DecidableEq

structure Capability where
  with_ : ResourcePointer
  can : Ability
deriving DecidableEq

/-- `joinSegments` from `src/src/capability/ability.ts`
(= `joinAbilitySegments` in `src/unnamed/part_001`): `segments.join("/")`. -/
def joinSegments (segments : List String) : String :=
  String.intercalate "/" segments

/-- JS `String.prototype.toLowerCase`, modelled as the per-character
lowercase map (all strings this library compares are ASCII identifiers). -/
def jsToLower (s : String) : String :=
  String.mk (s.data.map Char.toLower)

/-- JS `String.prototype.startsWith`. -/
def charsPrefix : List Char → List Char → Bool
  | [], _ => true
  | _ :: _, [] => false
  | p :: ps, c :: cs => p == c && charsPrefix ps cs

def jsStartsWith (s pre : String) : Bool :=
  charsPrefix pre.data s.data

/-- `isEqual` from `src/src/capability/ability.ts`
(= `isSameAbility` in `src/unnamed/part_001`). -/
def Ability.isEqual : Ability → Ability → Bool
  | .superuser, .superuser => true
  | .superuser, _ => false
  | _, .superuser => false
  | .structured ns1 segs1, .structured ns2 segs2 =>
    (jsToLower ns1 == jsToLower ns2)
      && (jsToLower (joinSegments segs1) == jsToLower (joinSegments segs2))

/-- `isSameAbility` from `src/unnamed/part_001` is textually the same
function as `Ability.isEqual`. -/
def isSameAbility : Ability → Ability → Bool := Ability.isEqual

/-- `as` from `src/unnamed/part_002`. -/
def resourcePointerAs (identifier : String) : ResourcePointer :=
  ⟨"as", identifier⟩

/-- `my` from `src/unnamed/part_002`; its `resource : Superuser | string`
argument is just a string. -/
def resourcePointerMy (resource : String) : ResourcePointer :=
  ⟨"my", resource⟩

/-! ### Key types and the JWT algorithm tag -/

/-- `KeyType` (declared in `src/types.ts`, not under `src/`); the three
alternatives are exactly the cases enumerated by `jwtAlgorithm` in
`src/unnamed/part_000`. -/
inductive KeyType where
  | rsa
  | ed25519
  | bls12_381
deriving DecidableEq

inductive TokenError where
  | malformedFormat
  | malformedEncodingHeader
  | malformedStructureHeader
  | malformedEncodingPayload
  | malformedStructurePayload
  | malformedStructureCompat
  | invalidIdentifier
  | unsupportedKeyType
  | issuerAlgorithmMismatch
  | invalidSignature
  | expired
  | notYetValid
deriving DecidableEq

/-- `jwtAlgorithm` from `src/unnamed/part_000` lines 355-362. The
`bls12-381` case and the `default` case both throw `Unknown KeyType`
(the spec's `UnsupportedKeyType`); `KeyType` being a closed union, the
`default` arm is unreachable. -/
def jwtAlgorithm : KeyType → Except TokenError String
  | .bls12_381 => .error .unsupportedKeyType
  | .ed25519 => .ok "EdDSA"
  | .rsa => .ok "RS256"

/-! ### Token data model (from `src/types.ts` declarations as used by
`src/unnamed/part_000`) -/

structure UcanHeader where
  alg : String
  typ : String
  ucv : String
deriving DecidableEq

structure UcanPayload where
  aud : String
  att : List Capability
  exp : Int
  fct : Option (List JsValue)
  iss : String
  nbf : Option Int
  nnc : Option String
  prf : List String

structure Ucan where
  header : UcanHeader
  payload : UcanPayload
  signature : String

/-! ### Token builder (`buildPayload`, `src/unnamed/part_000` lines 71-120) -/

structure BuildPayloadParams where
  issuer : String
  audience : String
  capabilities : Option (List Capability)
  lifetimeInSeconds : Option Int
  expiration : Option Int
  notBefore : Option Int
  facts : Option (List JsValue)
  proofs : Option (List String)
  addNonce : Option Bool

inductive BuildError where
  | issuerNotDid
  | audienceNotDid
deriving DecidableEq

/-- `buildPayload` from `src/unnamed/part_000`. `currentTimeInSeconds`
stands for `Math.floor(Date.now() / 1000)` and `nonce` for the value
`util.generateNonce()` would produce. The expiry line of the source is
`const exp = expiration || (currentTimeInSeconds + lifetimeInSeconds)`:
JavaScript `||` falls through to the default when `expiration` is the
(falsy) number `0`, which the `e = 0` test reproduces. -/
def buildPayload (currentTimeInSeconds : Int) (nonce : String)
    (params : BuildPayloadParams) : Except BuildError UcanPayload :=
  let capabilities := params.capabilities.getD []
  let lifetimeInSeconds := params.lifetimeInSeconds.getD 30
  let proofs := params.proofs.getD []
  let addNonce := params.addNonce.getD false
  if ¬ jsStartsWith params.issuer "did:" then .error .issuerNotDid
  else if ¬ jsStartsWith params.audience "did:" then .error .audienceNotDid
  else
    let exp : Int :=
      match params.expiration with
      | some e => if e = 0 then currentTimeInSeconds + lifetimeInSeconds else e
      | none => currentTimeInSeconds + lifetimeInSeconds
    .ok {
      aud := params.audience
      att := capabilities
      exp := exp
      fct := params.facts
      iss := params.issuer
      nbf := params.notBefore
      nnc := if addNonce then some nonce else none
      prf := proofs
    }

/-! ### JS string split -/

/-- JS `encodedUcan.split(".")` (`src/unnamed/part_000` line 287), on the
character list: `""` splits to `[""]`, separators are single dots. -/
def splitOnDotChars : List Char → List (List Char)
  | [] => [[]]
  | c :: rest =>
    if c = '.' then [] :: splitOnDotChars rest
    else
      match splitOnDotChars rest with
      | [] => [[c]]
      | hd :: tl => (c :: hd) :: tl

def jsSplitDot (s : String) : List String :=
  (splitOnDotChars s.data).map String.mk

/-! ### base64url codec

`uint8arrays.toString`/`fromString` with encoding `"base64url"`:
RFC 4648 URL-safe alphabet, no padding. -/

def b64Char (n : Nat) : Char :=
  if n < 26 then Char.ofNat (65 + n)
  else if n < 52 then Char.ofNat (97 + (n - 26))
  else if n < 62 then Char.ofNat (48 + (n - 52))
  else if n = 62 then '-'
  else '_'

def b64Val (c : Char) : Option Nat :=
  if 65 ≤ c.toNat ∧ c.toNat ≤ 90 then some (c.toNat - 65)
  else if 97 ≤ c.toNat ∧ c.toNat ≤ 122 then some (c.toNat - 97 + 26)
  else if 48 ≤ c.toNat ∧ c.toNat ≤ 57 then some (c.toNat - 48 + 52)
  else if c = '-' then some 62
  else if c = '_' then some 63
  else none

def b64urlEncodeBytes : List Nat → List Char
  | [] => []
  | [a] => [b64Char (a / 4), b64Char (a % 4 * 16)]
  | [a, b] => [b64Char (a / 4), b64Char (a % 4 * 16 + b / 16), b64Char (b % 16 * 4)]
  | a :: b :: c :: rest =>
    b64Char (a / 4) :: b64Char (a % 4 * 16 + b / 16) ::
      b64Char (b % 16 * 4 + c / 64) :: b64Char (c % 64) :: b64urlEncodeBytes rest

def b64urlDecodeChars : List Char → Option (List Nat)
  | [] => some []
  | [_] => none
  | [c1, c2] => do
    let v1 ← b64Val c1
    let v2 ← b64Val c2
    some [v1 * 4 + v2 / 16]
  | [c1, c2, c3] => do
    let v1 ← b64Val c1
    let v2 ← b64Val c2
    let v3 ← b64Val c3
    some [v1 * 4 + v2 / 16, v2 % 16 * 16 + v3 / 4]
  | c1 :: c2 :: c3 :: c4 :: rest => do
    let v1 ← b64Val c1
    let v2 ← b64Val c2
    let v3 ← b64Val c3
    let v4 ← b64Val c4
    let tail ← b64urlDecodeChars rest
    some ((v1 * 4 + v2 / 16) :: (v2 % 16 * 16 + v3 / 4) :: (v3 % 4 * 64 + v4) :: tail)

/-- `uint8arrays.fromString(s, "utf8")`, modelled for ASCII strings (every
string these round-trip theorems range over is ASCII; a code point below
128 encodes as the single byte equal to it). -/
def utf8Encode (cs : List Char) : List Nat :=
  cs.map Char.toNat

/-- `uint8arrays.toString(bytes, "utf8")`, modelled for ASCII byte
sequences. -/
def utf8Decode (bytes : List Nat) : Option (List Char) :=
  if bytes.all (fun b => b < 128) then some (bytes.map Char.ofNat) else none

/-! ### Decimal integer printing and parsing (JS number serialization,
restricted to the integral values the token format uses) -/

def digitChar (d : Nat) : Char := Char.ofNat (48 + d)

def natChars (n : Nat) : List Char :=
  if _h : n < 10 then [digitChar n]
  else natChars (n / 10) ++ [digitChar (n % 10)]
decreasing_by omega

def intChars : Int → List Char
  | .ofNat n => natChars n
  | .negSucc m => '-' :: natChars (m + 1)

def digitVal (c : Char) : Nat := c.toNat - 48

def takeDigits : List Char → List Char × List Char
  | [] => ([], [])
  | c :: rest =>
    if c.isDigit then
      let p := takeDigits rest
      (c :: p.1, p.2)
    else ([], c :: rest)

def digitsToNat (ds : List Char) : Nat :=
  ds.foldl (fun acc c => acc * 10 + digitVal c) 0

def parseNatNum (cs : List Char) : Option (Nat × List Char) :=
  match takeDigits cs with
  | ([], _) => none
  | (ds, rest) => some (digitsToNat ds, rest)

/-! ### JSON printing (`JSON.stringify`) -/

/-- The string-body escape `JSON.stringify` applies to quote and
backslash (the control-character and non-ASCII escape classes lie outside
the safe-string domain the round-trip theorems range over). -/
def escapeChars : List Char → List Char
  | [] => []
  | c :: rest =>
    if c = '"' ∨ c = '\\' then '\\' :: c :: escapeChars rest
    else c :: escapeChars rest

mutual

/-- `JSON.stringify` as the character list it produces: no whitespace,
integral numbers, object keys in insertion order. -/
def jsonStringifyChars : JsValue → List Char
  | .num i => intChars i
  | .null => ['n', 'u', 'l', 'l']
  | .bool false => ['f', 'a', 'l', 's', 'e']
  | .bool true => ['t', 'r', 'u', 'e']
  | .str s => '"' :: (escapeChars s.data ++ ['"'])
  | .arr [] => ['[', ']']
  | .arr (x :: xs) => '[' :: (jsonStringifyChars x ++ stringifyElemsTail xs ++ [']'])
  | .obj [] => ['\x7b', '\x7d']
  | .obj (f :: fs) => '\x7b' :: (stringifyField f ++ stringifyFieldsTail fs ++ ['\x7d'])

def stringifyElemsTail : List JsValue → List Char
  | [] => []
  | x :: xs => ',' :: (jsonStringifyChars x ++ stringifyElemsTail xs)

def stringifyField : String × JsValue → List Char
  | (k, v) => '"' :: (escapeChars k.data ++ '"' :: ':' :: jsonStringifyChars v)

def stringifyFieldsTail : List (String × JsValue) → List Char
  | [] => []
  | f :: fs => ',' :: (stringifyField f ++ stringifyFieldsTail fs)

end

/-! ### JSON parsing (`JSON.parse`, for the whitespace-free grammar
`JSON.stringify` emits) -/

def parseStrChars : List Char → Option (List Char × List Char)
  | [] => none
  | '"' :: rest => some ([], rest)
  | '\\' :: c :: rest =>
    if c = '"' ∨ c = '\\' then
      (parseStrChars rest).map (fun p => (c :: p.1, p.2))
    else none
  | c :: rest => (parseStrChars rest).map (fun p => (c :: p.1, p.2))

mutual

def parseVal : Nat → List Char → Option (JsValue × List Char)
  | 0, _ => none
  | fuel + 1, cs =>
    match cs with
    | 'n' :: 'u' :: 'l' :: 'l' :: rest => some (.null, rest)
    | 't' :: 'r' :: 'u' :: 'e' :: rest => some (.bool true, rest)
    | 'f' :: 'a' :: 'l' :: 's' :: 'e' :: rest => some (.bool false, rest)
    | '"' :: rest => (parseStrChars rest).map (fun p => (.str (String.mk p.1), p.2))
    | '[' :: rest =>
      match rest with
      | ']' :: rest2 => some (.arr [], rest2)
      | _ => (parseElems fuel rest).map (fun p => (.arr p.1, p.2))
    | '\x7b' :: rest =>
      match rest with
      | '\x7d' :: rest2 => some (.obj [], rest2)
      | _ => (parseFields fuel rest).map (fun p => (.obj p.1, p.2))
    | '-' :: rest => (parseNatNum rest).map (fun p => (.num (-(p.1 : Int)), p.2))
    | c :: rest =>
      if c.isDigit then (parseNatNum (c :: rest)).map (fun p => (.num (p.1 : Int), p.2))
      else none
    | [] => none

def parseElems : Nat → List Char → Option (List JsValue × List Char)
  | 0, _ => none
  | fuel + 1, cs =>
    match parseVal fuel cs with
    | none => none
    | some (v, rest) =>
      match rest with
      | ',' :: rest2 => (parseElems fuel rest2).map (fun p => (v :: p.1, p.2))
      | ']' :: rest2 => some ([v], rest2)
      | _ => none

def parseFields : Nat → List Char → Option (List (String × JsValue) × List Char)
  | 0, _ => none
  | fuel + 1, cs =>
    match cs with
    | '"' :: cs1 =>
      match parseStrChars cs1 with
      | none => none
      | some (key, cs2) =>
        match cs2 with
        | ':' :: cs3 =>
          match parseVal fuel cs3 with
          | none => none
          | some (v, cs4) =>
            match cs4 with
            | ',' :: cs5 =>
              (parseFields fuel cs5).map (fun p => ((String.mk key, v) :: p.1, p.2))
            | '\x7d' :: cs5 => some ([(String.mk key, v)], cs5)
            | _ => none
        | _ => none
    | _ => none

end

/-- `JSON.parse` on a whole string: the value must consume all input. The
fuel `s.length + 1` dominates the node count of any value the string can
denote. -/
def jsonParse (s : String) : Option JsValue :=
  match parseVal (s.length + 1) s.data with
  | some (j, []) => some j
  | _ => none

/-! ### Token codec (`src/unnamed/part_000` lines 181-253) -/

/-- The JS object value of a `UcanHeader`, keys in the insertion order of
the header literal in `sign` (lines 130-134). -/
def headerToJson (h : UcanHeader) : JsValue :=
  .obj [("alg", .str h.alg), ("typ", .str h.typ), ("ucv", .str h.ucv)]

def abilityToJson : Ability → JsValue
  | .superuser => .str "*"
  | .structured ns segs =>
    .obj [("namespace", .str ns), ("segments", .arr (segs.map .str))]

def resourcePointerToJson (rp : ResourcePointer) : JsValue :=
  .obj [("scheme", .str rp.scheme), ("hierPart", .str rp.hierPart)]

def capabilityToJson (c : Capability) : JsValue :=
  .obj [("with", resourcePointerToJson c.with_), ("can", abilityToJson c.can)]

/-- The JS object value of a `UcanPayload`, keys in the insertion order of
the payload literal in `buildPayload` (lines 110-119); `JSON.stringify`
omits the keys whose value is `undefined` (`fct`, `nbf`, `nnc`). -/
def payloadToJson (p : UcanPayload) : JsValue :=
  .obj (
    [("aud", .str p.aud),
     ("att", .arr (p.att.map capabilityToJson)),
     ("exp", .num p.exp)]
    ++ (match p.fct with
        | some facts => [("fct", JsValue.arr facts)]
        | none => [])
    ++ [("iss", .str p.iss)]
    ++ (match p.nbf with
        | some n => [("nbf", JsValue.num n)]
        | none => [])
    ++ (match p.nnc with
        | some s => [("nnc", JsValue.str s)]
        | none => [])
    ++ [("prf", .arr (p.prf.map .str))])

def encodeJson (j : JsValue) : String :=
  String.mk (b64urlEncodeBytes (utf8Encode (jsonStringifyChars j)))

/-- `encodeHeader` (lines 196-198): url-safe base64 of the UTF-8 bytes of
the JSON of the header. -/
def encodeHeader (header : UcanHeader) : String :=
  encodeJson (headerToJson header)

/-- `encodePayload` (lines 205-207). -/
def encodePayload (payload : UcanPayload) : String :=
  encodeJson (payloadToJson payload)

/-- `encode` (lines 181-188). -/
def encode (ucan : Ucan) : String :=
  encodeHeader ucan.header ++ "." ++ encodePayload ucan.payload ++ "." ++ ucan.signature

/-- Shared decode step of `parseHeader`/`parsePayload`: base64url to
bytes, bytes to string. -/
def decodeSegment (s : String) : Option String :=
  match b64urlDecodeChars s.data with
  | none => none
  | some bytes =>
    match utf8Decode bytes with
    | none => none
    | some cs => some (String.mk cs)

/-- `parseHeader` (lines 214-230): base64url failure and JSON failure
surface as distinct errors. -/
def parseHeader (encodedUcanHeader : String) : Except TokenError JsValue :=
  match decodeSegment encodedUcanHeader with
  | none => .error .malformedEncodingHeader
  | some decoded =>
    match jsonParse decoded with
    | none => .error .malformedStructureHeader
    | some j => .ok j

/-- `parsePayload` (lines 237-253). -/
def parsePayload (encodedUcanPayload : String) : Except TokenError JsValue :=
  match decodeSegment encodedUcanPayload with
  | none => .error .malformedEncodingPayload
  | some decoded =>
    match jsonParse decoded with
    | none => .error .malformedStructurePayload
    | some j => .ok j

/-! ### Duck-typed structure checks (compatibility layer) -/

/-- All-or-nothing conversion of a JS array's elements. -/
def optionMapM {α : Type} (f : JsValue → Option α) : List JsValue → Option (List α)
  | [] => some []
  | x :: xs =>
    match f x, optionMapM f xs with
    | some y, some ys => some (y :: ys)
    | _, _ => none

/-- Extract a JS string value (used for `segments` entries and `prf`
entries). -/
def jsStrVal : JsValue → Option String
  | .str s => some s
  | _ => none

def jsonToHeader (j : JsValue) : Option UcanHeader :=
  match getProp j "alg", getProp j "typ", getProp j "ucv" with
  | some (.str alg), some (.str typ), some (.str ucv) => some ⟨alg, typ, ucv⟩
  | _, _, _ => none

def jsonToAbility : JsValue → Option Ability
  | .str s => if s = "*" then some .superuser else none
  | .obj fields =>
    match fields.lookup "namespace", fields.lookup "segments" with
    | some (.str ns), some (.arr segs) =>
      (optionMapM jsStrVal segs).map (Ability.structured ns)
    | _, _ => none
  | _ => none

def jsonToResourcePointer : JsValue → Option ResourcePointer
  | .obj fields =>
    match fields.lookup "scheme", fields.lookup "hierPart" with
    | some (.str scheme), some (.str hier) => some ⟨scheme, hier⟩
    | _, _ => none
  | _ => none

def jsonToCapability (j : JsValue) : Option Capability :=
  match getProp j "with", getProp j "can" with
  | some w, some c =>
    match jsonToResourcePointer w, jsonToAbility c with
    | some rp, some ab => some ⟨rp, ab⟩
    | _, _ => none
  | _, _ => none

def jsonToPayload (j : JsValue) : Option UcanPayload :=
  match getProp j "aud", getProp j "iss", getProp j "exp" with
  | some (.str aud), some (.str iss), some (.num expVal) =>
    match getProp j "att", getProp j "prf" with
    | some (.arr att), some (.arr prf) =>
      match optionMapM jsonToCapability att, optionMapM jsStrVal prf with
      | some atts, some prfs =>
        match (match getProp j "nbf" with
               | none => some none
               | some (.num n) => some (some n)
               | some _ => none),
              (match getProp j "fct" with
               | none => some none
               | some (.arr facts) => some (some facts)
               | some _ => none),
              (match getProp j "nnc" with
               | none => some none
               | some (.str s) => some (some s)
               | some _ => none) with
        | some nbf, some fct, some nnc =>
          some ⟨aud, atts, expVal, fct, iss, nbf, nnc, prfs⟩
        | _, _, _ => none
      | _, _ => none
    | _, _ => none
  | _, _, _ => none

/-- Modelled from the spec: `handleCompatibility` (`src/compatibility.ts`
is not under `src/`) duck-type-checks the decoded header and payload JSON
values and returns the typed pair, rejecting malformed structures (§4.2
`MalformedStructure`; §9 "typed parse functions returning a discriminated
result"). -/
def handleCompatibility (h p : JsValue) :
    Except TokenError (UcanHeader × UcanPayload) :=
  match jsonToHeader h, jsonToPayload p with
  | some hh, some pp => .ok (hh, pp)
  | _, _ => .error .malformedStructureCompat

/-! ### Single-layer validation (`src/unnamed/part_000` lines 263-345) -/

structure ValidateOptions where
  checkIssuer : Option Bool
  checkIsExpired : Option Bool
  checkIsTooEarly : Option Bool
  checkSignature : Option Bool

/-- The external collaborators `validate` consults (§6): the key type
recoverable from a DID (`did.didToPublicKey(..).type`, `none` modelling a
throw on an unparseable identifier) and the injected signature verifier
`verifySignatureUtf8 (data, signature, did)`. -/
structure Deps where
  didKeyType : String → Option KeyType
  verifySignatureUtf8 : String → String → String → Bool

/-- The issuer check of `validate` (lines 297-302): the algorithm tag of
the issuer's key type must equal `header.alg`. -/
def checkIssuerStep (deps : Deps) (iss alg : String) : Except TokenError Unit :=
  match deps.didKeyType iss with
  | none => .error .invalidIdentifier
  | some kt =>
    match jwtAlgorithm kt with
    | .error e => .error e
    | .ok a => if a ≠ alg then .error .issuerAlgorithmMismatch else .ok ()

/-- Lines 287-310 of `validate`: split on `.` and destructure the first
three segments, parse header and payload, run the compatibility layer,
then the issuer and signature checks — everything before the time-bound
checks. -/
def decodeAndCheckStatic (deps : Deps) (encodedUcan : String)
    (options : ValidateOptions) : Except TokenError Ucan :=
  match jsSplitDot encodedUcan with
  | encodedHeader :: encodedPayload :: signature :: _ =>
    match parseHeader encodedHeader with
    | .error e => .error e
    | .ok headerDecoded =>
      match parsePayload encodedPayload with
      | .error e => .error e
      | .ok payloadDecoded =>
        match handleCompatibility headerDecoded payloadDecoded with
        | .error e => .error e
        | .ok (header, payload) =>
          match (if options.checkIssuer.getD true then
                   checkIssuerStep deps payload.iss header.alg
                 else .ok ()) with
          | .error e => .error e
          | .ok _ =>
            if options.checkSignature.getD true
                && !(deps.verifySignatureUtf8
                      (encodedHeader ++ "." ++ encodedPayload) signature
                      payload.iss) then
              .error .invalidSignature
            else .ok ⟨header, payload, signature⟩
  | _ => .error .malformedFormat

/-- `isExpired` (lines 333-335); `now` stands for
`Math.floor(Date.now() / 1000)`. -/
def isExpired (now : Int) (ucan : Ucan) : Bool :=
  ucan.payload.exp ≤ now

/-- `isTooEarly` (lines 342-345). -/
def isTooEarly (now : Int) (ucan : Ucan) : Bool :=
  match ucan.payload.nbf with
  | none => false
  | some nbf => now < nbf

/-- `validate` (lines 281-326): the static stage, then the expiry check,
then the not-before check; every option defaults to enabled. -/
def validate (deps : Deps) (now : Int) (encodedUcan : String)
    (options : ValidateOptions) : Except TokenError Ucan :=
  match decodeAndCheckStatic deps encodedUcan options with
  | .error e => .error e
  | .ok ucan =>
    if options.checkIsExpired.getD true && isExpired now ucan then
      .error .expired
    else if options.checkIsTooEarly.getD true && isTooEarly now ucan then
      .error .notYetValid
    else .ok ucan

/-! ### Safe-string domain for the round-trip theorems -/

/-- Printable ASCII: the characters `JSON.stringify` passes through (with
quote and backslash escaped) and whose UTF-8 encoding is one byte. -/
def safeChar (c : Char) : Bool :=
  32 ≤ c.toNat && c.toNat < 128

def safeString (s : String) : Bool :=
  s.data.all safeChar

mutual

def JsValue.safe : JsValue → Bool
  | .null => true
  | .bool _ => true
  | .num _ => true
  | .str s => safeString s
  | .arr l => safeList l
  | .obj l => safeFields l

def safeList : List JsValue → Bool
  | [] => true
  | x :: xs => x.safe && safeList xs

def safeFields : List (String × JsValue) → Bool
  | [] => true
  | f :: fs => safeString f.1 && f.2.safe && safeFields fs

end

def safeAbility : Ability → Bool
  | .superuser => true
  | .structured ns segs => safeString ns && segs.all safeString

def safeCapability (c : Capability) : Bool :=
  safeString c.with_.scheme && safeString c.with_.hierPart && safeAbility c.can

def safeHeader (h : UcanHeader) : Bool :=
  safeString h.alg && safeString h.typ && safeString h.ucv

def safePayload (p : UcanPayload) : Bool :=
  safeString p.aud && p.att.all safeCapability
    && (match p.fct with | some f => safeList f | none => true)
    && safeString p.iss
    && (match p.nnc with | some s => safeString s | none => true)
    && p.prf.all safeString

/-- The hypothesis of the round-trip theorem: every string of the token is
printable ASCII, and the signature segment contains no dot. -/
def safeUcan (u : Ucan) : Bool :=
  safeHeader u.header && safePayload u.payload
    && u.signature.data.all (fun c => c ≠ '.')

/-- Bookkeeping for the parser round-trip proofs: the serialized form of
a value followed by `rest` parses back exactly when `rest` cannot extend a
trailing number, i.e. when `rest` does not start with a digit. -/
def noDigitHead : List Char → Bool
  | [] => true
  | c :: _ => !c.isDigit

mutual

/-- Node count of a JSON value; any fuel at least this large lets
`parseVal` parse the value's serialization. -/
def jsonSize : JsValue → Nat
  | .null => 1
  | .bool _ => 1
  | .num _ => 1
  | .str _ => 1
  | .arr l => 1 + jsonSizeList l
  | .obj l => 1 + jsonSizeFields l

def jsonSizeList : List JsValue → Nat
  | [] => 0
  | x :: xs => 1 + jsonSize x + jsonSizeList xs

def jsonSizeFields : List (String × JsValue) → Nat
  | [] => 0
  | f :: fs => 1 + jsonSize f.2 + jsonSizeFields fs

end

/-! ### Sample collaborators and tokens for the concrete witnesses -/

/-- Collaborators that accept everything: every DID resolves to an
ed25519 key, every signature verifies. -/
def sampleDeps : Deps :=
  ⟨fun _ => some KeyType.ed25519, fun _ _ _ => true⟩

/-- `validate` called without options: every check at its default. -/
def sampleOptions : ValidateOptions :=
  ⟨none, none, none, none⟩

def sampleUcan : Ucan :=
  ⟨⟨"EdDSA", "JWT", "0.8.1"⟩,
   ⟨"did:key:aud", [], 5, none, "did:key:iss", none, none, []⟩,
   "sig"⟩

/-- The encoded form of `sampleUcan` (its three-segment JWT string). -/
def sampleEncoded : String :=
  "eyJhbGciOiJFZERTQSIsInR5cCI6IkpXVCIsInVjdiI6IjAuOC4xIn0.eyJhdWQiOiJkaWQ6a2V5OmF1ZCIsImF0dCI6W10sImV4cCI6NSwiaXNzIjoiZGlkOmtleTppc3MiLCJwcmYiOltdfQ.sig"

def sampleUcanNbf : Ucan :=
  ⟨⟨"EdDSA", "JWT", "0.8.1"⟩,
   ⟨"did:key:aud", [], 3000, none, "did:key:iss", some 2000, none, []⟩,
   "sig"⟩

/-- The encoded form of `sampleUcanNbf`. -/
def sampleEncodedNbf : String :=
  "eyJhbGciOiJFZERTQSIsInR5cCI6IkpXVCIsInVjdiI6IjAuOC4xIn0.eyJhdWQiOiJkaWQ6a2V5OmF1ZCIsImF0dCI6W10sImV4cCI6MzAwMCwiaXNzIjoiZGlkOmtleTppc3MiLCJuYmYiOjIwMDAsInByZiI6W119.sig"

/-! ### Theorems -/

/-- Claim C5: for all abilities `a` and `b`, ability equality holds if and
only if both are the Superuser marker, or both are structured with
namespaces equal under case-insensitive comparison and `/`-joined segment
paths equal under case-insensitive comparison; a Superuser ability is
never equal to a structured ability. -/
theorem ability_isEqual_spec :
    (∀ a b : Ability, a.isEqual b = true ↔
      (a = .superuser ∧ b = .superuser) ∨
      (∃ ns1 segs1 ns2 segs2,
        a = .structured ns1 segs1 ∧ b = .structured ns2 segs2 ∧
        jsToLower ns1 = jsToLower ns2 ∧
        jsToLower (joinSegments segs1) = jsToLower (joinSegments segs2))) ∧
    (∀ ns segs, Ability.isEqual .superuser (.structured ns segs) = false ∧
      Ability.isEqual (.structured ns segs) .superuser = false) := by
  constructor
  · intro a b
    cases a <;> cases b <;> simp [Ability.isEqual]
    constructor
    · rintro ⟨h1, h2⟩
      exact ⟨_, _, ⟨rfl, rfl⟩, _, _, ⟨rfl, rfl⟩, h1, h2⟩
    · rintro ⟨ns1, segs1, ⟨rfl, rfl⟩, ns2, segs2, ⟨rfl, rfl⟩, h1, h2⟩
      exact ⟨h1, h2⟩
  · intro ns segs
    exact ⟨rfl, rfl⟩

/-- Claim C9: for structured abilities with case-insensitively equal
namespaces, equality holds whenever the `/`-joined forms of their segment
lists coincide case-insensitively, even when the segment lists differ. -/
theorem ability_isEqual_of_joined_segments (ns1 ns2 : String)
    (segs1 segs2 : List String)
    (hns : jsToLower ns1 = jsToLower ns2)
    (hjoin : jsToLower (joinSegments segs1) = jsToLower (joinSegments segs2)) :
    Ability.isEqual (.structured ns1 segs1) (.structured ns2 segs2) = true := by
  simp [Ability.isEqual, hns, hjoin]

/-- Witness for C9 at the concrete segment lists `["read/write"]` and
`["read", "write"]`: the lists differ but the abilities are equal. -/
theorem ability_isEqual_of_joined_segments_witness :
    (["read/write"] ≠ (["read", "write"] : List String)) ∧
    Ability.isEqual (.structured "crud" ["read/write"])
      (.structured "crud" ["read", "write"]) = true :=
  ⟨by decide,
   ability_isEqual_of_joined_segments "crud" "crud" ["read/write"]
     ["read", "write"] rfl (by decide)⟩

/-- Claim C10: `isAbility` accepts a record with a string `namespace` and
any array as `segments`, without inspecting the array's elements — here
the segments array holds a number and a boolean. -/
theorem isAbility_accepts_nonstring_segments :
    isAbility (JsValue.obj
      [("namespace", JsValue.str "wnfs"),
       ("segments", JsValue.arr [JsValue.num 1, JsValue.bool true])]) = true := by
  rfl

/-- Counterexample to claim C8 as stated: `SUPERUSER` is the plain string
value `"*"` (not a tagged variant), and the ordinary hierPart identifying
string `"*"` (here passed to the `my` resource-pointer constructor)
compares equal to the Superuser case. -/
theorem superuser_sentinel_counterexample :
    SUPERUSER = JsValue.str "*" ∧
    (resourcePointerMy "*").hierPart = "*" ∧
    isSuperuser (JsValue.str (resourcePointerMy "*").hierPart) = true :=
  ⟨rfl, rfl, rfl⟩

/-- Claim C8 amended: `SUPERUSER` is the sentinel string `"*"` compared by
(string) identity rather than a tagged variant; no structured ability or
other object value compares equal to it, but an ordinary hierPart
identifying string `"*"` is indistinguishable from the Superuser marker. -/
theorem superuser_sentinel_amended :
    (∀ fields, isSuperuser (JsValue.obj fields) = false) ∧
    (∀ ns segs, Ability.structured ns segs ≠ Ability.superuser) ∧
    isSuperuser SUPERUSER = true ∧
    isSuperuser (JsValue.str (resourcePointerMy "*").hierPart) = true := by
  refine ⟨fun fields => rfl, ?_, rfl, rfl⟩
  intro ns segs h
  exact Ability.noConfusion h

/-- Counterexample to claim C2 as stated: `buildPayload` with a supplied
`expiration` of `0` (current time 100, default lifetime 30) returns
`exp = 130`, not the supplied `expiration`, because the source computes
`exp` with JavaScript `||`, which treats `0` as absent. -/
theorem buildPayload_expiration_zero_counterexample :
    (buildPayload 100 ""
      ⟨"did:key:zIss", "did:key:zAud", none, none, some 0, none, none, none,
        none⟩).map UcanPayload.exp = Except.ok 130 ∧
    (130 : Int) ≠ 0 :=
  ⟨rfl, by decide⟩

/-- Claim C2 amended: the returned payload's `exp` equals the supplied
`expiration` whenever one is supplied and is nonzero; when no
`expiration` is supplied — or when the supplied value is the falsy
number `0` — `exp` is the current time plus `lifetimeInSeconds`
(defaulting to 30). -/
theorem buildPayload_exp_amended (now : Int) (nonce : String)
    (params : BuildPayloadParams)
    (hiss : jsStartsWith params.issuer "did:" = true)
    (haud : jsStartsWith params.audience "did:" = true) :
    (∀ e : Int, params.expiration = some e → e ≠ 0 →
      (buildPayload now nonce params).map UcanPayload.exp = .ok e) ∧
    ((params.expiration = none ∨ params.expiration = some 0) →
      (buildPayload now nonce params).map UcanPayload.exp
        = .ok (now + params.lifetimeInSeconds.getD 30)) := by
  constructor
  · intro e he hne
    simp [buildPayload, Except.map, hiss, haud, he, hne]
  · rintro (he | he) <;> simp [buildPayload, Except.map, hiss, haud, he]

/-- Witness for the amended C2: a supplied nonzero expiration of 500 is
returned unchanged. -/
theorem buildPayload_exp_amended_witness :
    (buildPayload 100 ""
      ⟨"did:key:zIss", "did:key:zAud", none, none, some 500, none, none, none,
        none⟩).map UcanPayload.exp = Except.ok 500 :=
  (buildPayload_exp_amended 100 ""
    ⟨"did:key:zIss", "did:key:zAud", none, none, some 500, none, none, none,
      none⟩ rfl rfl).1 500 rfl (by decide)

/-- Claim C6: deriving the header's algorithm tag returns `"EdDSA"` for
ed25519 and `"RS256"` for rsa, and is a hard `UnsupportedKeyType` error
for every other key type, with no silent fallback value. -/
theorem jwtAlgorithm_spec :
    jwtAlgorithm .ed25519 = .ok "EdDSA" ∧
    jwtAlgorithm .rsa = .ok "RS256" ∧
    ∀ kt : KeyType, kt ≠ .ed25519 → kt ≠ .rsa →
      jwtAlgorithm kt = .error .unsupportedKeyType := by
  refine ⟨rfl, rfl, ?_⟩
  intro kt h1 h2
  cases kt
  · exact absurd rfl h2
  · exact absurd rfl h1
  · rfl

/-- Witness for C6 at the only remaining key type, `bls12-381`. -/
theorem jwtAlgorithm_spec_witness :
    jwtAlgorithm .bls12_381 = .error .unsupportedKeyType :=
  jwtAlgorithm_spec.2.2 .bls12_381 (by decide) (by decide)

/-! #### The single-layer validator: segment count, expiry, not-before -/

theorem jwtAlgorithm_error_cases (kt : KeyType) (e : TokenError)
    (h : jwtAlgorithm kt = .error e) : e = .unsupportedKeyType := by
  cases kt <;> simp_all [jwtAlgorithm]

theorem parseHeader_error_cases (s : String) (e : TokenError)
    (h : parseHeader s = .error e) :
    e = .malformedEncodingHeader ∨ e = .malformedStructureHeader := by
  unfold parseHeader at h
  split at h
  · simp_all
  · split at h <;> simp_all

theorem parsePayload_error_cases (s : String) (e : TokenError)
    (h : parsePayload s = .error e) :
    e = .malformedEncodingPayload ∨ e = .malformedStructurePayload := by
  unfold parsePayload at h
  split at h
  · simp_all
  · split at h <;> simp_all

theorem handleCompatibility_error_cases (hj pj : JsValue) (e : TokenError)
    (h : handleCompatibility hj pj = .error e) :
    e = .malformedStructureCompat := by
  unfold handleCompatibility at h
  split at h <;> simp_all

theorem checkIssuerStep_error_cases (deps : Deps) (iss alg : String)
    (e : TokenError) (h : checkIssuerStep deps iss alg = .error e) :
    e = .invalidIdentifier ∨ e = .unsupportedKeyType ∨
      e = .issuerAlgorithmMismatch := by
  unfold checkIssuerStep at h
  split at h
  · simp_all
  · rename_i kt _
    rcases hj : jwtAlgorithm kt with e2 | a
    · rw [hj] at h
      have := jwtAlgorithm_error_cases kt e2 hj
      simp_all
    · rw [hj] at h
      dsimp only at h
      by_cases ha : a = alg
      · simp [ha] at h
      · simp [ha] at h
        simp_all

theorem decodeAndCheckStatic_malformedFormat_iff (deps : Deps) (enc : String)
    (options : ValidateOptions) :
    decodeAndCheckStatic deps enc options = .error .malformedFormat ↔
      (jsSplitDot enc).length < 3 := by
  rcases h : jsSplitDot enc with _ | ⟨a, _ | ⟨b, _ | ⟨c, rest⟩⟩⟩
  · simp [decodeAndCheckStatic, h]
  · simp [decodeAndCheckStatic, h]
  · simp [decodeAndCheckStatic, h]
  · constructor
    · intro hres
      exfalso
      unfold decodeAndCheckStatic at hres
      rw [h] at hres
      dsimp only at hres
      rcases hph : parseHeader a with e | hj
      · rw [hph] at hres
        rcases parseHeader_error_cases a e hph with rfl | rfl <;> simp at hres
      · rw [hph] at hres
        dsimp only at hres
        rcases hpp : parsePayload b with e | pj
        · rw [hpp] at hres
          rcases parsePayload_error_cases b e hpp with rfl | rfl <;> simp at hres
        · rw [hpp] at hres
          dsimp only at hres
          rcases hhc : handleCompatibility hj pj with e | hp
          · rw [hhc] at hres
            rcases handleCompatibility_error_cases hj pj e hhc with rfl
            simp at hres
          · rw [hhc] at hres
            rcases hp with ⟨header, payload⟩
            dsimp only at hres
            rcases hci : (if options.checkIssuer.getD true then
                checkIssuerStep deps payload.iss header.alg
              else .ok ()) with e | uRes
            · rw [hci] at hres
              dsimp only at hres
              by_cases ho : options.checkIssuer.getD true = true
              · rw [ho] at hci
                simp only [if_true] at hci
                rcases checkIssuerStep_error_cases deps payload.iss header.alg
                    e hci with rfl | rfl | rfl <;> simp at hres
              · simp [ho] at hci
            · rw [hci] at hres
              dsimp only at hres
              split at hres <;> simp at hres
    · intro hlen
      exfalso
      simp only [List.length_cons] at hlen
      omega

/-- Claim C1 amended: single-layer validation fails with `MalformedFormat`
exactly when the string splits on `.` into fewer than 3 segments; the
first three segments of a longer string are processed and the extra
segments are silently ignored. -/
theorem validate_malformedFormat_iff (deps : Deps) (now : Int) (enc : String)
    (options : ValidateOptions) :
    validate deps now enc options = .error .malformedFormat ↔
      (jsSplitDot enc).length < 3 := by
  rw [← decodeAndCheckStatic_malformedFormat_iff deps enc options]
  unfold validate
  rcases hd : decodeAndCheckStatic deps enc options with e | u
  · simp
  · dsimp only
    constructor
    · intro hres
      exfalso
      split at hres
      · simp at hres
      · split at hres
        · simp at hres
        · simp at hres
    · intro hres
      exact absurd hres (by simp)

/-- Counterexample to claim C1 as stated: the string `"a.b.c.d"` splits
into 4 segments yet single-layer validation does not reject it with a
`MalformedFormat` error (here it proceeds and fails to base64url-decode
segment `"a"`); moreover appending a fourth junk segment to a fully valid
token still validates successfully. -/
theorem validate_fourSegments_counterexample :
    (jsSplitDot "a.b.c.d").length = 4 ∧
    validate sampleDeps 0 "a.b.c.d" sampleOptions ≠
      Except.error TokenError.malformedFormat ∧
    validate sampleDeps 2500 (sampleEncodedNbf ++ ".junk") sampleOptions =
      Except.ok sampleUcanNbf := by
  refine ⟨rfl, ?_, rfl⟩
  have h : validate sampleDeps 0 "a.b.c.d" sampleOptions =
      Except.error TokenError.malformedEncodingHeader := rfl
  rw [h]
  simp

/-- Claim C3: once the static stage (parsing, issuer and signature checks)
has accepted the token and the expiry check is enabled, single-layer
validation rejects with `Expired` exactly when `payload.exp ≤ now` — in
particular a token whose signature verified is still rejected when
expired, and a token with `exp > now` is never rejected for expiry. -/
theorem validate_expired_iff (deps : Deps) (now : Int) (enc : String)
    (options : ValidateOptions) (u : Ucan)
    (hok : decodeAndCheckStatic deps enc options = .ok u)
    (hchk : options.checkIsExpired.getD true = true) :
    validate deps now enc options = .error .expired ↔ u.payload.exp ≤ now := by
  unfold validate
  rw [hok]
  simp only [hchk, Bool.true_and]
  rcases hexp : isExpired now u with _ | _
  · simp only [Bool.false_eq_true, if_false]
    unfold isExpired at hexp
    constructor
    · intro hres
      split at hres <;> simp_all
    · intro hle
      simp [hle] at hexp
  · simp only [if_true]
    unfold isExpired at hexp
    simp_all

/-- Witness for C3: a concrete token with `exp = 5` and a verifying
signature, validated at `now = 1000`, is rejected as `Expired`. -/
theorem validate_expired_iff_witness :
    validate sampleDeps 1000 sampleEncoded sampleOptions =
      Except.error TokenError.expired :=
  (validate_expired_iff sampleDeps 1000 sampleEncoded sampleOptions
    sampleUcan rfl rfl).mpr (by decide)

/-- Claim C7: once the static stage has accepted the token and the
not-before check is enabled, then — provided the (earlier) expiry stage
does not fire — single-layer validation rejects with `NotYetValid`
exactly when `payload.nbf` is present and `payload.nbf > now`; and a
payload with no `nbf` field is never rejected as too early. -/
theorem validate_notYetValid_iff (deps : Deps) (now : Int) (enc : String)
    (options : ValidateOptions) (u : Ucan)
    (hok : decodeAndCheckStatic deps enc options = .ok u)
    (hchk : options.checkIsTooEarly.getD true = true) :
    ((options.checkIsExpired.getD true && isExpired now u) = false →
      (validate deps now enc options = .error .notYetValid ↔
        ∃ n, u.payload.nbf = some n ∧ now < n)) ∧
    (u.payload.nbf = none →
      validate deps now enc options ≠ .error .notYetValid) := by
  constructor
  · intro hnoexp
    unfold validate
    rw [hok]
    dsimp only
    rw [hnoexp]
    simp only [Bool.false_eq_true, if_false, hchk, Bool.true_and]
    unfold isTooEarly
    rcases hnbf : u.payload.nbf with _ | n
    · simp
    · simp only []
      by_cases hlt : now < n
      · simp [hlt]
      · simp [hlt]
  · intro hnone hres
    unfold validate at hres
    rw [hok] at hres
    dsimp only at hres
    have htee : isTooEarly now u = false := by
      unfold isTooEarly
      rw [hnone]
    split at hres
    · simp_all
    · rw [htee] at hres
      simp at hres

/-- Witness for C7: a concrete token with `nbf = 2000` and `exp = 3000`,
validated at `now = 1000` (signature verifying, not expired), is rejected
as `NotYetValid`. -/
theorem validate_notYetValid_iff_witness :
    validate sampleDeps 1000 sampleEncodedNbf sampleOptions =
      Except.error TokenError.notYetValid :=
  ((validate_notYetValid_iff sampleDeps 1000 sampleEncodedNbf sampleOptions
      sampleUcanNbf rfl rfl).1 (by decide)).mpr ⟨2000, rfl, by decide⟩

/-! #### Round-trip machinery: induction principle, base64url, UTF-8,
split, decimal digits -/

/-- Induction over `JsValue` that hands the inductive hypothesis to every
member of an array and every field value of an object. -/
theorem JsValue.inductionOn (P : JsValue → Prop)
    (hnull : P .null) (hbool : ∀ b, P (.bool b)) (hnum : ∀ n, P (.num n))
    (hstr : ∀ s, P (.str s))
    (harr : ∀ l, (∀ x ∈ l, P x) → P (.arr l))
    (hobj : ∀ l, (∀ p ∈ l, P p.2) → P (.obj l)) :
    ∀ j, P j
  | .null => hnull
  | .bool b => hbool b
  | .num n => hnum n
  | .str s => hstr s
  | .arr l =>
    harr l (fun x hx =>
      JsValue.inductionOn P hnull hbool hnum hstr harr hobj x)
  | .obj l =>
    hobj l (fun p hp =>
      JsValue.inductionOn P hnull hbool hnum hstr harr hobj p.2)
decreasing_by
  · calc sizeOf x < sizeOf l := List.sizeOf_lt_of_mem hx
      _ < sizeOf (JsValue.arr l) := by simp
  · calc sizeOf p.2 < sizeOf p := by
          rcases p with ⟨p1, p2⟩
          simp
      _ ≤ sizeOf l := le_of_lt (List.sizeOf_lt_of_mem hp)
      _ < sizeOf (JsValue.obj l) := by simp

theorem b64Val_b64Char : ∀ n, n < 64 → b64Val (b64Char n) = some n := by
  decide

theorem b64urlEncodeBytes_roundtrip :
    ∀ bs : List Nat, (∀ b ∈ bs, b < 256) →
      b64urlDecodeChars (b64urlEncodeBytes bs) = some bs := by
  intro bs
  induction bs using b64urlEncodeBytes.induct with
  | case1 => intro; rfl
  | case2 a =>
    intro hlt
    have ha : a < 256 := hlt a (by simp)
    have h1 : a / 4 < 64 := by omega
    have h2 : a % 4 * 16 < 64 := by omega
    simp only [b64urlEncodeBytes, b64urlDecodeChars, b64Val_b64Char _ h1,
      b64Val_b64Char _ h2, Option.bind_some]
    simp
    all_goals omega
  | case3 a b =>
    intro hlt
    have ha : a < 256 := hlt a (by simp)
    have hb : b < 256 := hlt b (by simp)
    have h1 : a / 4 < 64 := by omega
    have h2 : a % 4 * 16 + b / 16 < 64 := by omega
    have h3 : b % 16 * 4 < 64 := by omega
    simp only [b64urlEncodeBytes, b64urlDecodeChars, b64Val_b64Char _ h1,
      b64Val_b64Char _ h2, b64Val_b64Char _ h3, Option.bind_some]
    simp
    all_goals omega
  | case4 a b c rest ih =>
    intro hlt
    have ha : a < 256 := hlt a (by simp)
    have hb : b < 256 := hlt b (by simp)
    have hc : c < 256 := hlt c (by simp)
    have h1 : a / 4 < 64 := by omega
    have h2 : a % 4 * 16 + b / 16 < 64 := by omega
    have h3 : b % 16 * 4 + c / 64 < 64 := by omega
    have h4 : c % 64 < 64 := by omega
    have hrest : ∀ x ∈ rest, x < 256 := fun x hx => hlt x (by simp [hx])
    simp only [b64urlEncodeBytes, b64urlDecodeChars,
      b64Val_b64Char _ h1, b64Val_b64Char _ h2, b64Val_b64Char _ h3,
      b64Val_b64Char _ h4, Option.bind_some]
    rw [ih hrest]
    simp
    all_goals omega

theorem b64urlEncodeBytes_mem :
    ∀ bs : List Nat, (∀ b ∈ bs, b < 256) →
      ∀ ch ∈ b64urlEncodeBytes bs, ∃ k, k < 64 ∧ ch = b64Char k := by
  intro bs
  induction bs using b64urlEncodeBytes.induct with
  | case1 => intro _ ch hch; simp [b64urlEncodeBytes] at hch
  | case2 a =>
    intro hlt ch hch
    have ha : a < 256 := hlt a (by simp)
    simp only [b64urlEncodeBytes, List.mem_cons, List.mem_singleton] at hch
    rcases hch with rfl | rfl | h
    · exact ⟨a / 4, by omega, rfl⟩
    · exact ⟨a % 4 * 16, by omega, rfl⟩
    · simp at h
  | case3 a b =>
    intro hlt ch hch
    have ha : a < 256 := hlt a (by simp)
    have hb : b < 256 := hlt b (by simp)
    simp only [b64urlEncodeBytes, List.mem_cons, List.mem_singleton] at hch
    rcases hch with rfl | rfl | rfl | h
    · exact ⟨a / 4, by omega, rfl⟩
    · exact ⟨a % 4 * 16 + b / 16, by omega, rfl⟩
    · exact ⟨b % 16 * 4, by omega, rfl⟩
    · simp at h
  | case4 a b c rest ih =>
    intro hlt ch hch
    have ha : a < 256 := hlt a (by simp)
    have hb : b < 256 := hlt b (by simp)
    have hc : c < 256 := hlt c (by simp)
    have hrest : ∀ x ∈ rest, x < 256 := fun x hx => hlt x (by simp [hx])
    simp only [b64urlEncodeBytes, List.mem_cons] at hch
    rcases hch with rfl | rfl | rfl | rfl | h
    · exact ⟨a / 4, by omega, rfl⟩
    · exact ⟨a % 4 * 16 + b / 16, by omega, rfl⟩
    · exact ⟨b % 16 * 4 + c / 64, by omega, rfl⟩
    · exact ⟨c % 64, by omega, rfl⟩
    · exact ih hrest ch h

theorem b64Char_ne_dot : ∀ k, k < 64 → b64Char k ≠ '.' := by
  decide

theorem utf8_roundtrip (cs : List Char) (h : ∀ c ∈ cs, c.toNat < 128) :
    utf8Decode (utf8Encode cs) = some cs := by
  unfold utf8Decode utf8Encode
  rw [if_pos]
  · congr 1
    rw [List.map_map]
    apply List.map_congr_left ?_ |>.trans (List.map_id cs)
    intro c hc
    exact Char.ofNat_toNat c
  · simp only [List.all_eq_true, List.mem_map]
    rintro b ⟨c, hc, rfl⟩
    exact decide_eq_true (h c hc)

theorem splitOnDotChars_ne_nil : ∀ cs : List Char, splitOnDotChars cs ≠ [] := by
  intro cs
  induction cs with
  | nil => simp [splitOnDotChars]
  | cons c rest ih =>
    unfold splitOnDotChars
    split
    · simp
    · rcases h : splitOnDotChars rest with _ | ⟨hd, tl⟩
      · simp
      · simp

theorem splitOnDotChars_no_dot (a : List Char) (ha : '.' ∉ a) :
    splitOnDotChars a = [a] := by
  induction a with
  | nil => rfl
  | cons c rest ih =>
    have hc : c ≠ '.' := by intro h; exact ha (by simp [h])
    have hrest : '.' ∉ rest := fun h => ha (by simp [h])
    unfold splitOnDotChars
    rw [if_neg hc, ih hrest]

theorem splitOnDotChars_append (a rest : List Char) (ha : '.' ∉ a) :
    splitOnDotChars (a ++ '.' :: rest) = a :: splitOnDotChars rest := by
  induction a with
  | nil => simp [splitOnDotChars]
  | cons c atail ih =>
    have hc : c ≠ '.' := by intro h; exact ha (by simp [h])
    have hatail : '.' ∉ atail := fun h => ha (by simp [h])
    rw [List.cons_append, splitOnDotChars, if_neg hc, ih hatail]

theorem digitChar_isDigit : ∀ d, d < 10 → (digitChar d).isDigit = true := by
  decide

theorem digitVal_digitChar : ∀ d, d < 10 → digitVal (digitChar d) = d := by
  decide

theorem digitChar_not_special :
    ∀ d, d < 10 → (digitChar d).isDigit = true ∧ digitChar d ≠ '-' ∧
      digitChar d ≠ '.' := by
  decide

theorem natChars_digits (n : Nat) : ∀ c ∈ natChars n, c.isDigit = true := by
  induction n using Nat.strong_induction_on with
  | _ n ih =>
    rw [natChars]
    split
    · intro c hc
      simp only [List.mem_singleton] at hc
      subst hc
      exact digitChar_isDigit n (by omega)
    · intro c hc
      rcases List.mem_append.mp hc with h | h
      · exact ih (n / 10) (by omega) c h
      · simp only [List.mem_singleton] at h
        subst h
        exact digitChar_isDigit (n % 10) (by omega)

theorem natChars_ne_nil (n : Nat) : natChars n ≠ [] := by
  rw [natChars]
  split
  · simp
  · simp

theorem digitsToNat_append_singleton (a : List Char) (c : Char) :
    digitsToNat (a ++ [c]) = digitsToNat a * 10 + digitVal c := by
  unfold digitsToNat
  rw [List.foldl_append]
  rfl

theorem digitsToNat_natChars (n : Nat) : digitsToNat (natChars n) = n := by
  induction n using Nat.strong_induction_on with
  | _ n ih =>
    rw [natChars]
    split
    · simp only [digitsToNat, List.foldl_cons, List.foldl_nil]
      rw [digitVal_digitChar n (by omega)]
      omega
    · rw [digitsToNat_append_singleton, ih (n / 10) (by omega),
        digitVal_digitChar (n % 10) (by omega)]
      omega

theorem takeDigits_append (ds rest : List Char)
    (hds : ∀ c ∈ ds, c.isDigit = true) (hrest : noDigitHead rest = true) :
    takeDigits (ds ++ rest) = (ds, rest) := by
  induction ds with
  | nil =>
    rcases rest with _ | ⟨c, rtail⟩
    · rfl
    · simp only [noDigitHead, Bool.not_eq_true'] at hrest
      simp [takeDigits, hrest]
  | cons d dtail ih =>
    have hd : d.isDigit = true := hds d (by simp)
    simp only [List.cons_append]
    unfold takeDigits
    rw [if_pos hd, ih (fun c hc => hds c (by simp [hc]))]

theorem parseNatNum_natChars (n : Nat) (rest : List Char)
    (hrest : noDigitHead rest = true) :
    parseNatNum (natChars n ++ rest) = some (n, rest) := by
  unfold parseNatNum
  rw [takeDigits_append (natChars n) rest (natChars_digits n) hrest]
  rcases h : natChars n with _ | ⟨d, ds⟩
  · exact absurd h (natChars_ne_nil n)
  · dsimp only
    rw [← h, digitsToNat_natChars]

/-! #### JSON string bodies, serialization shape and ASCII bounds -/

theorem parseStrChars_escape (s : List Char)
    (h : ∀ c ∈ s, safeChar c = true) (rest : List Char) :
    parseStrChars (escapeChars s ++ '"' :: rest) = some (s, rest) := by
  induction s with
  | nil => rfl
  | cons c stail ih =>
    have htail := ih (fun x hx => h x (by simp [hx]))
    by_cases hesc : c = '"' ∨ c = '\\'
    · have he : escapeChars (c :: stail) = '\\' :: c :: escapeChars stail := by
        rw [escapeChars, if_pos hesc]
      rw [he, List.cons_append, List.cons_append, parseStrChars.eq_3,
        if_pos hesc, htail]
      rfl
    · push_neg at hesc
      have he : escapeChars (c :: stail) = c :: escapeChars stail := by
        rw [escapeChars, if_neg]
        simp [hesc.1, hesc.2]
      rw [he, List.cons_append,
        parseStrChars.eq_4 c _ (fun hcc => hesc.1 hcc)
          (fun c1 r1 hcc _ => hesc.2 hcc),
        htail]
      rfl

theorem natChars_mem (n : Nat) :
    ∀ c ∈ natChars n, ∃ d, d < 10 ∧ c = digitChar d := by
  induction n using Nat.strong_induction_on with
  | _ n ih =>
    rw [natChars]
    split
    · intro c hc
      simp only [List.mem_singleton] at hc
      exact ⟨n, by omega, hc⟩
    · intro c hc
      rcases List.mem_append.mp hc with hm | hm
      · exact ih (n / 10) (by omega) c hm
      · simp only [List.mem_singleton] at hm
        exact ⟨n % 10, by omega, hm⟩

theorem digitChar_ascii : ∀ d, d < 10 → (digitChar d).toNat < 128 := by
  decide

theorem digitChar_excludes :
    ∀ d, d < 10 → digitChar d ≠ ']' ∧ digitChar d ≠ '\x7d' ∧
      digitChar d ≠ ',' := by
  decide

theorem escapeChars_mem (s : List Char) :
    ∀ c ∈ escapeChars s, c = '\\' ∨ c ∈ s := by
  induction s with
  | nil => simp [escapeChars]
  | cons c stail ih =>
    intro x hx
    rw [escapeChars] at hx
    split at hx
    · simp only [List.mem_cons] at hx
      rcases hx with rfl | rfl | hx
      · exact Or.inl rfl
      · exact Or.inr (by simp)
      · rcases ih x hx with h | h
        · exact Or.inl h
        · exact Or.inr (by simp [h])
    · simp only [List.mem_cons] at hx
      rcases hx with rfl | hx
      · exact Or.inr (by simp)
      · rcases ih x hx with h | h
        · exact Or.inl h
        · exact Or.inr (by simp [h])

/-- The first character of a serialized JSON value is never one of the
structural closers `]`, `}`, `,` (so array/object parsing branches
deterministically). -/
theorem jsonStringifyChars_head (j : JsValue) :
    ∃ d tail, jsonStringifyChars j = d :: tail ∧ d ≠ ']' ∧ d ≠ '\x7d' ∧
      d ≠ ',' := by
  cases j with
  | null => exact ⟨'n', _, rfl, by decide, by decide, by decide⟩
  | bool b =>
    cases b
    · exact ⟨'f', _, rfl, by decide, by decide, by decide⟩
    · exact ⟨'t', _, rfl, by decide, by decide, by decide⟩
  | num i =>
    cases i with
    | ofNat n =>
      rcases hn : natChars n with _ | ⟨d, ds⟩
      · exact absurd hn (natChars_ne_nil n)
      · have hd : ∃ k, k < 10 ∧ d = digitChar k :=
          natChars_mem n d (by rw [hn]; simp)
        rcases hd with ⟨k, hk, rfl⟩
        have hx := digitChar_excludes k hk
        exact ⟨digitChar k, ds, by simp [jsonStringifyChars, intChars, hn],
          hx.1, hx.2.1, hx.2.2⟩
    | negSucc m =>
      exact ⟨'-', _, rfl, by decide, by decide, by decide⟩
  | str s => exact ⟨'"', _, rfl, by decide, by decide, by decide⟩
  | arr l =>
    cases l
    · exact ⟨'[', _, rfl, by decide, by decide, by decide⟩
    · exact ⟨'[', _, rfl, by decide, by decide, by decide⟩
  | obj l =>
    cases l
    · exact ⟨'\x7b', _, rfl, by decide, by decide, by decide⟩
    · exact ⟨'\x7b', _, rfl, by decide, by decide, by decide⟩

theorem safeString_chars (s : String) (h : safeString s = true) :
    ∀ c ∈ s.data, safeChar c = true := by
  intro c hc
  unfold safeString at h
  exact List.all_eq_true.mp h c hc

theorem safeChar_ascii (c : Char) (h : safeChar c = true) : c.toNat < 128 := by
  unfold safeChar at h
  simp only [Bool.and_eq_true, decide_eq_true_eq] at h
  exact h.2

theorem escapeChars_ascii (s : String) (h : safeString s = true) :
    ∀ c ∈ escapeChars s.data, c.toNat < 128 := by
  intro c hc
  rcases escapeChars_mem s.data c hc with rfl | hmem
  · decide
  · exact safeChar_ascii c (safeString_chars s h c hmem)

theorem intChars_ascii (i : Int) : ∀ c ∈ intChars i, c.toNat < 128 := by
  cases i with
  | ofNat n =>
    intro c hc
    rcases natChars_mem n c hc with ⟨d, hd, rfl⟩
    exact digitChar_ascii d hd
  | negSucc m =>
    intro c hc
    rcases List.mem_cons.mp hc with rfl | hc2
    · decide
    · rcases natChars_mem (m + 1) c hc2 with ⟨d, hd, rfl⟩
      exact digitChar_ascii d hd

theorem stringifyElemsTail_ascii (xs : List JsValue)
    (hx : ∀ x ∈ xs, JsValue.safe x = true →
      ∀ c ∈ jsonStringifyChars x, c.toNat < 128)
    (hs : safeList xs = true) :
    ∀ c ∈ stringifyElemsTail xs, c.toNat < 128 := by
  induction xs with
  | nil => simp [stringifyElemsTail]
  | cons y ys ih =>
    rw [safeList] at hs
    simp only [Bool.and_eq_true] at hs
    rcases hs with ⟨hy, hys⟩
    intro c hc
    rw [stringifyElemsTail] at hc
    rcases List.mem_cons.mp hc with rfl | hc2
    · decide
    · rcases List.mem_append.mp hc2 with hm | hm
      · exact hx y (by simp) hy c hm
      · exact ih (fun x hxm => hx x (by simp [hxm])) hys c hm

theorem stringifyField_ascii (f : String × JsValue)
    (hv : JsValue.safe f.2 = true → ∀ c ∈ jsonStringifyChars f.2, c.toNat < 128)
    (hk : safeString f.1 = true) (hvs : JsValue.safe f.2 = true) :
    ∀ c ∈ stringifyField f, c.toNat < 128 := by
  rcases f with ⟨k, v⟩
  intro c hc
  rw [stringifyField] at hc
  rcases List.mem_cons.mp hc with rfl | hc2
  · decide
  · rcases List.mem_append.mp hc2 with hm | hm
    · exact escapeChars_ascii k hk c hm
    · rcases List.mem_cons.mp hm with rfl | hm2
      · decide
      · rcases List.mem_cons.mp hm2 with rfl | hm3
        · decide
        · exact hv hvs c hm3

theorem stringifyFieldsTail_ascii (fs : List (String × JsValue))
    (hx : ∀ f ∈ fs, JsValue.safe f.2 = true →
      ∀ c ∈ jsonStringifyChars f.2, c.toNat < 128)
    (hs : safeFields fs = true) :
    ∀ c ∈ stringifyFieldsTail fs, c.toNat < 128 := by
  induction fs with
  | nil => simp [stringifyFieldsTail]
  | cons f fs2 ih =>
    rw [safeFields] at hs
    simp only [Bool.and_eq_true] at hs
    rcases hs with ⟨⟨hk, hv⟩, hfs⟩
    intro c hc
    rw [stringifyFieldsTail] at hc
    rcases List.mem_cons.mp hc with rfl | hc2
    · decide
    · rcases List.mem_append.mp hc2 with hm | hm
      · exact stringifyField_ascii f (hx f (by simp)) hk hv c hm
      · exact ih (fun g hg => hx g (by simp [hg])) hfs c hm

/-- Everything `JSON.stringify` emits for a safe value is ASCII, so the
UTF-8 step is the identity byte map. -/
theorem jsonStringify_ascii :
    ∀ j : JsValue, JsValue.safe j = true →
      ∀ c ∈ jsonStringifyChars j, c.toNat < 128 := by
  intro j
  induction j using JsValue.inductionOn with
  | hnull =>
    intro _ c hc
    rw [jsonStringifyChars] at hc
    fin_cases hc <;> decide
  | hbool b =>
    intro _ c hc
    cases b <;> rw [jsonStringifyChars] at hc <;> fin_cases hc <;> decide
  | hnum n => intro _ c hc; exact intChars_ascii n c hc
  | hstr s =>
    intro hsafe c hc
    rw [JsValue.safe] at hsafe
    rw [jsonStringifyChars] at hc
    rcases List.mem_cons.mp hc with rfl | hc2
    · decide
    · rcases List.mem_append.mp hc2 with hm | hm
      · exact escapeChars_ascii s hsafe c hm
      · rcases List.mem_singleton.mp hm with rfl
        decide
  | harr l ih =>
    intro hsafe c hc
    rw [JsValue.safe] at hsafe
    cases l with
    | nil =>
      rw [jsonStringifyChars] at hc
      fin_cases hc <;> decide
    | cons x xs =>
      rw [safeList] at hsafe
      simp only [Bool.and_eq_true] at hsafe
      rcases hsafe with ⟨hx, hxs⟩
      rw [jsonStringifyChars] at hc
      rcases List.mem_cons.mp hc with rfl | hc2
      · decide
      · rcases List.mem_append.mp hc2 with hm | hm
        · rcases List.mem_append.mp hm with hm2 | hm2
          · exact ih x (by simp) hx c hm2
          · exact stringifyElemsTail_ascii xs
              (fun y hy => ih y (by simp [hy])) hxs c hm2
        · rcases List.mem_singleton.mp hm with rfl
          decide
  | hobj l ih =>
    intro hsafe c hc
    rw [JsValue.safe] at hsafe
    cases l with
    | nil =>
      rw [jsonStringifyChars] at hc
      fin_cases hc <;> decide
    | cons f fs =>
      rw [safeFields] at hsafe
      simp only [Bool.and_eq_true] at hsafe
      rcases hsafe with ⟨⟨hk, hv⟩, hfs⟩
      rw [jsonStringifyChars] at hc
      rcases List.mem_cons.mp hc with rfl | hc2
      · decide
      · rcases List.mem_append.mp hc2 with hm | hm
        · rcases List.mem_append.mp hm with hm2 | hm2
          · exact stringifyField_ascii f (ih f (by simp)) hk hv c hm2
          · exact stringifyFieldsTail_ascii fs
              (fun g hg => ih g (by simp [hg])) hfs c hm2
        · rcases List.mem_singleton.mp hm with rfl
          decide

/-! #### Fuel bound: the node count never exceeds the serialized length -/

theorem intChars_ne_nil (i : Int) : intChars i ≠ [] := by
  cases i with
  | ofNat n => exact natChars_ne_nil n
  | negSucc m => simp [intChars]

theorem jsonSizeList_le (xs : List JsValue)
    (h : ∀ x ∈ xs, jsonSize x ≤ (jsonStringifyChars x).length) :
    jsonSizeList xs ≤ (stringifyElemsTail xs).length := by
  induction xs with
  | nil => rw [jsonSizeList, stringifyElemsTail]; simp
  | cons y ys ih =>
    have hy := h y (by simp)
    have hys := ih (fun z hz => h z (by simp [hz]))
    rw [jsonSizeList, stringifyElemsTail]
    simp only [List.length_cons, List.length_append]
    omega

theorem jsonSizeFields_le (fs : List (String × JsValue))
    (h : ∀ g ∈ fs, jsonSize g.2 ≤ (jsonStringifyChars g.2).length) :
    jsonSizeFields fs ≤ (stringifyFieldsTail fs).length := by
  induction fs with
  | nil => rw [jsonSizeFields, stringifyFieldsTail]; simp
  | cons g gs ih =>
    have hg := h g (by simp)
    have hgs := ih (fun z hz => h z (by simp [hz]))
    rcases g with ⟨k, v⟩
    dsimp only at hg
    rw [jsonSizeFields, stringifyFieldsTail, stringifyField]
    simp only [List.length_cons, List.length_append]
    omega

theorem jsonSize_le_length :
    ∀ j : JsValue, jsonSize j ≤ (jsonStringifyChars j).length := by
  intro j
  induction j using JsValue.inductionOn with
  | hnull => rw [jsonSize, jsonStringifyChars]; simp
  | hbool b => cases b <;> simp [jsonSize, jsonStringifyChars]
  | hnum n =>
    rw [jsonSize, jsonStringifyChars]
    have h := List.length_pos.mpr (intChars_ne_nil n)
    omega
  | hstr s => rw [jsonSize, jsonStringifyChars]; simp
  | harr l ih =>
    cases l with
    | nil => rw [jsonSize, jsonStringifyChars, jsonSizeList]; simp
    | cons x xs =>
      have h1 := ih x (by simp)
      have h2 := jsonSizeList_le xs (fun z hz => ih z (by simp [hz]))
      rw [jsonSize, jsonStringifyChars, jsonSizeList]
      simp only [List.length_cons, List.length_append]
      omega
  | hobj l ih =>
    cases l with
    | nil => rw [jsonSize, jsonStringifyChars, jsonSizeFields]; simp
    | cons f fs =>
      have h1 := ih f (by simp)
      have h2 := jsonSizeFields_le fs (fun z hz => ih z (by simp [hz]))
      rcases f with ⟨k, v⟩
      dsimp only at h1
      rw [jsonSize, jsonStringifyChars, jsonSizeFields, stringifyField]
      simp only [List.length_cons, List.length_append]
      omega

/-! #### One-step reductions of the parser (definitional, since the
parser recurses structurally on its fuel) -/

theorem parseVal_arr_step (fuel : Nat) (rest : List Char) :
    parseVal (fuel + 1) ('[' :: rest) =
      (match rest with
       | ']' :: rest2 => some (.arr [], rest2)
       | _ => (parseElems fuel rest).map (fun p => (.arr p.1, p.2))) := rfl

theorem parseVal_obj_step (fuel : Nat) (rest : List Char) :
    parseVal (fuel + 1) ('\x7b' :: rest) =
      (match rest with
       | '\x7d' :: rest2 => some (.obj [], rest2)
       | _ => (parseFields fuel rest).map (fun p => (.obj p.1, p.2))) := rfl

theorem parseVal_neg_step (fuel : Nat) (rest : List Char) :
    parseVal (fuel + 1) ('-' :: rest) =
      (parseNatNum rest).map (fun p => (JsValue.num (-(p.1 : Int)), p.2)) := rfl

theorem parseVal_str_step (fuel : Nat) (rest : List Char) :
    parseVal (fuel + 1) ('"' :: rest) =
      (parseStrChars rest).map
        (fun p => (JsValue.str (String.mk p.1), p.2)) := rfl

theorem parseElems_step (fuel : Nat) (cs : List Char) :
    parseElems (fuel + 1) cs =
      (match parseVal fuel cs with
       | none => none
       | some (v, rest) =>
         match rest with
         | ',' :: rest2 => (parseElems fuel rest2).map (fun p => (v :: p.1, p.2))
         | ']' :: rest2 => some ([v], rest2)
         | _ => none) := rfl

theorem parseFields_step (fuel : Nat) (cs1 : List Char) :
    parseFields (fuel + 1) ('"' :: cs1) =
      (match parseStrChars cs1 with
       | none => none
       | some (key, cs2) =>
         match cs2 with
         | ':' :: cs3 =>
           match parseVal fuel cs3 with
           | none => none
           | some (v, cs4) =>
             match cs4 with
             | ',' :: cs5 =>
               (parseFields fuel cs5).map
                 (fun p => ((String.mk key, v) :: p.1, p.2))
             | '\x7d' :: cs5 => some ([(String.mk key, v)], cs5)
             | _ => none
         | _ => none) := rfl

/-- A digit-headed input is parsed as a number: none of the keyword,
string, array, object or minus branches can fire. -/
theorem parseVal_digit (fuel : Nat) (c : Char) (cs : List Char)
    (hc : c.isDigit = true) :
    parseVal (fuel + 1) (c :: cs) =
      (parseNatNum (c :: cs)).map
        (fun p => (JsValue.num (p.1 : Int), p.2)) := by
  have hn : c ≠ 'n' := by rintro rfl; exact absurd hc (by decide)
  have ht : c ≠ 't' := by rintro rfl; exact absurd hc (by decide)
  have hf : c ≠ 'f' := by rintro rfl; exact absurd hc (by decide)
  have hq : c ≠ '"' := by rintro rfl; exact absurd hc (by decide)
  have hlb : c ≠ '[' := by rintro rfl; exact absurd hc (by decide)
  have hob : c ≠ '\x7b' := by rintro rfl; exact absurd hc (by decide)
  have hm : c ≠ '-' := by rintro rfl; exact absurd hc (by decide)
  rw [parseVal.eq_def]
  dsimp only
  split <;> simp_all

/-! #### The parser inverts the printer -/

theorem parseElems_last (fuel : Nat) (cs : List Char) (v : JsValue)
    (rest2 : List Char) (h : parseVal fuel cs = some (v, ']' :: rest2)) :
    parseElems (fuel + 1) cs = some ([v], rest2) := by
  rw [parseElems_step, h]
  rfl

theorem parseElems_comma (fuel : Nat) (cs : List Char) (v : JsValue)
    (rest2 : List Char) (h : parseVal fuel cs = some (v, ',' :: rest2)) :
    parseElems (fuel + 1) cs =
      (parseElems fuel rest2).map (fun p => (v :: p.1, p.2)) := by
  rw [parseElems_step, h]
  rfl

theorem parseFields_lastStep (fuel : Nat) (cs1 Z rest : List Char)
    (k : List Char) (v : JsValue)
    (h1 : parseStrChars cs1 = some (k, ':' :: Z))
    (h2 : parseVal fuel Z = some (v, '\x7d' :: rest)) :
    parseFields (fuel + 1) ('"' :: cs1) =
      some ([(String.mk k, v)], rest) := by
  have hstep : parseFields (fuel + 1) ('"' :: cs1) =
      (match parseVal fuel Z with
       | none => none
       | some (v, cs4) =>
         match cs4 with
         | ',' :: cs5 =>
           (parseFields fuel cs5).map
             (fun p => ((String.mk k, v) :: p.1, p.2))
         | '\x7d' :: cs5 => some ([(String.mk k, v)], cs5)
         | _ => none) := by
    rw [parseFields_step, h1]
    rfl
  rw [hstep, h2]
  rfl

theorem parseFields_commaStep (fuel : Nat) (cs1 Z rest : List Char)
    (k : List Char) (v : JsValue)
    (h1 : parseStrChars cs1 = some (k, ':' :: Z))
    (h2 : parseVal fuel Z = some (v, ',' :: rest)) :
    parseFields (fuel + 1) ('"' :: cs1) =
      (parseFields fuel rest).map
        (fun p => ((String.mk k, v) :: p.1, p.2)) := by
  have hstep : parseFields (fuel + 1) ('"' :: cs1) =
      (match parseVal fuel Z with
       | none => none
       | some (v, cs4) =>
         match cs4 with
         | ',' :: cs5 =>
           (parseFields fuel cs5).map
             (fun p => ((String.mk k, v) :: p.1, p.2))
         | '\x7d' :: cs5 => some ([(String.mk k, v)], cs5)
         | _ => none) := by
    rw [parseFields_step, h1]
    rfl
  rw [hstep, h2]
  rfl

theorem parseElems_roundtrip :
    ∀ (xs : List JsValue) (x : JsValue),
      (∀ y ∈ x :: xs, JsValue.safe y = true →
        ∀ fuel, jsonSize y ≤ fuel → ∀ rest, noDigitHead rest = true →
          parseVal fuel (jsonStringifyChars y ++ rest) = some (y, rest)) →
      JsValue.safe x = true → safeList xs = true →
      ∀ fuel, jsonSizeList (x :: xs) ≤ fuel →
        ∀ rest, noDigitHead rest = true →
          parseElems fuel
            (jsonStringifyChars x ++ (stringifyElemsTail xs ++ (']' :: rest)))
            = some (x :: xs, rest) := by
  intro xs
  induction xs with
  | nil =>
    intro x hpt hx _ fuel hfuel rest hrest
    rcases fuel with _ | g
    · rw [jsonSizeList] at hfuel; omega
    · rw [jsonSizeList, jsonSizeList] at hfuel
      rw [stringifyElemsTail, List.nil_append]
      exact parseElems_last g _ x rest
        (hpt x (by simp) hx g (by omega) (']' :: rest) rfl)
  | cons y ys ih =>
    intro x hpt hx hys fuel hfuel rest hrest
    rcases fuel with _ | g
    · rw [jsonSizeList] at hfuel; omega
    · rw [jsonSizeList, jsonSizeList] at hfuel
      rw [safeList] at hys
      simp only [Bool.and_eq_true] at hys
      obtain ⟨hy, hys2⟩ := hys
      rw [stringifyElemsTail]
      simp only [List.cons_append, List.append_assoc]
      rw [parseElems_comma g _ x _
          (hpt x (by simp) hx g (by omega)
            (',' :: (jsonStringifyChars y ++
              (stringifyElemsTail ys ++ ']' :: rest))) rfl),
        ih y (fun z hz => hpt z (by
            rcases List.mem_cons.mp hz with rfl | hz2
            · simp
            · simp [hz2]))
          hy hys2 g (by rw [jsonSizeList]; omega) rest hrest]
      rfl

theorem parseFields_roundtrip :
    ∀ (fs : List (String × JsValue)) (k : String) (v : JsValue),
      (∀ g ∈ (k, v) :: fs, JsValue.safe g.2 = true →
        ∀ fuel, jsonSize g.2 ≤ fuel → ∀ rest, noDigitHead rest = true →
          parseVal fuel (jsonStringifyChars g.2 ++ rest) = some (g.2, rest)) →
      safeString k = true → JsValue.safe v = true → safeFields fs = true →
      ∀ fuel, jsonSizeFields ((k, v) :: fs) ≤ fuel →
        ∀ rest, noDigitHead rest = true →
          parseFields fuel
            (stringifyField (k, v) ++
              (stringifyFieldsTail fs ++ ('\x7d' :: rest)))
            = some ((k, v) :: fs, rest) := by
  intro fs
  induction fs with
  | nil =>
    intro k v hpt hk hv _ fuel hfuel rest hrest
    rcases fuel with _ | g
    · rw [jsonSizeFields] at hfuel; omega
    · rw [jsonSizeFields, jsonSizeFields] at hfuel
      dsimp only at hfuel
      rw [stringifyFieldsTail, List.nil_append, stringifyField]
      simp only [List.cons_append, List.append_assoc]
      exact parseFields_lastStep g _ _ rest k.data v
        (parseStrChars_escape k.data (safeString_chars k hk) _)
        (hpt (k, v) (by simp) hv g (by dsimp only; omega) ('\x7d' :: rest) rfl)
  | cons f fs2 ih =>
    intro k v hpt hk hv hfs fuel hfuel rest hrest
    rcases f with ⟨k2, v2⟩
    rcases fuel with _ | g
    · rw [jsonSizeFields] at hfuel; omega
    · rw [jsonSizeFields, jsonSizeFields] at hfuel
      dsimp only at hfuel
      rw [safeFields] at hfs
      simp only [Bool.and_eq_true] at hfs
      obtain ⟨⟨hk2, hv2⟩, hfs2⟩ := hfs
      rw [stringifyFieldsTail, stringifyField]
      simp only [List.cons_append, List.append_assoc]
      rw [parseFields_commaStep g _ _ _ k.data v
          (parseStrChars_escape k.data (safeString_chars k hk) _)
          (hpt (k, v) (by simp) hv g (by dsimp only; omega)
            (',' :: (stringifyField (k2, v2) ++
              (stringifyFieldsTail fs2 ++ '\x7d' :: rest))) rfl),
        ih k2 v2 (fun g2 hg2 => hpt g2 (by
            rcases List.mem_cons.mp hg2 with rfl | hg3
            · simp
            · simp [hg3]))
          hk2 hv2 hfs2 g (by rw [jsonSizeFields]; dsimp only; omega)
          rest hrest]
      rfl

theorem parseVal_roundtrip :
    ∀ j : JsValue, JsValue.safe j = true →
      ∀ fuel, jsonSize j ≤ fuel → ∀ rest, noDigitHead rest = true →
        parseVal fuel (jsonStringifyChars j ++ rest) = some (j, rest) := by
  intro j
  induction j using JsValue.inductionOn with
  | hnull =>
    intro _ fuel hfuel rest _
    rcases fuel with _ | g
    · rw [jsonSize] at hfuel; omega
    · rfl
  | hbool b =>
    intro _ fuel hfuel rest _
    rcases fuel with _ | g
    · rw [jsonSize] at hfuel; omega
    · cases b <;> rfl
  | hnum n =>
    intro _ fuel hfuel rest hrest
    rcases fuel with _ | g
    · rw [jsonSize] at hfuel; omega
    · cases n with
      | ofNat k =>
        rw [jsonStringifyChars, intChars]
        rcases hd : natChars k with _ | ⟨d, ds⟩
        · exact absurd hd (natChars_ne_nil k)
        · have hdig : d.isDigit = true :=
            natChars_digits k d (by rw [hd]; simp)
          rw [List.cons_append, parseVal_digit g d _ hdig,
            ← List.cons_append, ← hd, parseNatNum_natChars k rest hrest]
          rfl
      | negSucc m =>
        rw [jsonStringifyChars, intChars, List.cons_append,
          parseVal_neg_step, parseNatNum_natChars (m + 1) rest hrest]
        simp [Int.negSucc_eq]
  | hstr s =>
    intro hsafe fuel hfuel rest _
    rcases fuel with _ | g
    · rw [jsonSize] at hfuel; omega
    · rw [JsValue.safe] at hsafe
      rw [jsonStringifyChars]
      simp only [List.cons_append, List.append_assoc, List.nil_append]
      rw [parseVal_str_step,
        parseStrChars_escape s.data (safeString_chars s hsafe) rest]
      rfl
  | harr l ih =>
    intro hsafe fuel hfuel rest hrest
    rcases fuel with _ | g
    · rw [jsonSize] at hfuel; omega
    · rw [JsValue.safe] at hsafe
      cases l with
      | nil => rfl
      | cons x xs =>
        rw [safeList] at hsafe
        simp only [Bool.and_eq_true] at hsafe
        obtain ⟨hx, hxs⟩ := hsafe
        rw [jsonSize, jsonSizeList] at hfuel
        rw [jsonStringifyChars]
        simp only [List.cons_append, List.append_assoc, List.nil_append]
        rw [parseVal_arr_step]
        rcases jsonStringifyChars_head x with ⟨d, tail, hxhead, hd1, _, _⟩
        rw [hxhead, List.cons_append]
        split
        · simp_all
        · rw [← List.cons_append, ← hxhead,
            parseElems_roundtrip xs x ih hx hxs g
              (by rw [jsonSizeList]; omega) rest hrest]
          rfl
  | hobj l ih =>
    intro hsafe fuel hfuel rest hrest
    rcases fuel with _ | g
    · rw [jsonSize] at hfuel; omega
    · rw [JsValue.safe] at hsafe
      cases l with
      | nil => rfl
      | cons f fs =>
        rw [safeFields] at hsafe
        simp only [Bool.and_eq_true] at hsafe
        obtain ⟨⟨hk, hv⟩, hfs⟩ := hsafe
        rcases f with ⟨k, v⟩
        rw [jsonSize, jsonSizeFields] at hfuel
        dsimp only at hk hv hfuel
        have hpf := parseFields_roundtrip fs k v ih hk hv hfs g
          (by rw [jsonSizeFields]; dsimp only; omega) rest hrest
        rw [jsonStringifyChars]
        simp only [List.cons_append, List.append_assoc, List.nil_append]
        rw [parseVal_obj_step]
        rw [stringifyField] at hpf
        simp only [List.cons_append, List.append_assoc] at hpf
        rw [stringifyField]
        simp only [List.cons_append, List.append_assoc]
        rw [hpf]
        rfl

/-! #### String-level codec round trip -/

theorem jsonParse_roundtrip (j : JsValue) (hsafe : JsValue.safe j = true) :
    jsonParse (String.mk (jsonStringifyChars j)) = some j := by
  have h := parseVal_roundtrip j hsafe ((jsonStringifyChars j).length + 1)
    (by have := jsonSize_le_length j; omega) [] rfl
  rw [List.append_nil] at h
  show (match parseVal ((jsonStringifyChars j).length + 1)
          (jsonStringifyChars j) with
        | some (jv, []) => some jv
        | _ => none) = some j
  rw [h]

theorem decodeSegment_encodeJson (j : JsValue) (hsafe : JsValue.safe j = true) :
    decodeSegment (encodeJson j) = some (String.mk (jsonStringifyChars j)) := by
  have hascii := jsonStringify_ascii j hsafe
  have hbytes : ∀ b ∈ utf8Encode (jsonStringifyChars j), b < 256 := by
    intro b hb
    unfold utf8Encode at hb
    rcases List.mem_map.mp hb with ⟨c, hc, rfl⟩
    have := hascii c hc
    omega
  show (match b64urlDecodeChars
          (b64urlEncodeBytes (utf8Encode (jsonStringifyChars j))) with
        | none => none
        | some bytes =>
          match utf8Decode bytes with
          | none => none
          | some cs => some (String.mk cs))
      = some (String.mk (jsonStringifyChars j))
  rw [b64urlEncodeBytes_roundtrip _ hbytes]
  show (match utf8Decode (utf8Encode (jsonStringifyChars j)) with
        | none => none
        | some cs => some (String.mk cs))
      = some (String.mk (jsonStringifyChars j))
  rw [utf8_roundtrip _ hascii]

theorem parseHeader_encodeJson (j : JsValue) (hsafe : JsValue.safe j = true) :
    parseHeader (encodeJson j) = .ok j := by
  unfold parseHeader
  rw [decodeSegment_encodeJson j hsafe]
  show (match jsonParse (String.mk (jsonStringifyChars j)) with
        | none => Except.error TokenError.malformedStructureHeader
        | some j2 => Except.ok j2) = Except.ok j
  rw [jsonParse_roundtrip j hsafe]

theorem parsePayload_encodeJson (j : JsValue) (hsafe : JsValue.safe j = true) :
    parsePayload (encodeJson j) = .ok j := by
  unfold parsePayload
  rw [decodeSegment_encodeJson j hsafe]
  show (match jsonParse (String.mk (jsonStringifyChars j)) with
        | none => Except.error TokenError.malformedStructurePayload
        | some j2 => Except.ok j2) = Except.ok j
  rw [jsonParse_roundtrip j hsafe]

/-! #### Safety of the JSON views of header and payload -/

theorem headerToJson_safe (h : UcanHeader) (hs : safeHeader h = true) :
    JsValue.safe (headerToJson h) = true := by
  unfold safeHeader at hs
  simp only [Bool.and_eq_true] at hs
  obtain ⟨⟨h1, h2⟩, h3⟩ := hs
  unfold headerToJson
  simp +decide [JsValue.safe, safeFields, h1, h2, h3]

theorem safeFields_append (a b : List (String × JsValue)) :
    safeFields (a ++ b) = (safeFields a && safeFields b) := by
  induction a with
  | nil => rw [List.nil_append, safeFields, Bool.true_and]
  | cons f fs ih =>
    rw [List.cons_append, safeFields, safeFields, ih]
    simp [Bool.and_assoc]

theorem strList_safe (l : List String) (h : ∀ s ∈ l, safeString s = true) :
    safeList (l.map JsValue.str) = true := by
  induction l with
  | nil => rw [List.map_nil, safeList]
  | cons s ss ih =>
    rw [List.map_cons, safeList]
    simp only [Bool.and_eq_true]
    exact ⟨by simpa [JsValue.safe] using h s (by simp),
      ih (fun t ht => h t (by simp [ht]))⟩

theorem abilityToJson_safe (a : Ability) (ha : safeAbility a = true) :
    JsValue.safe (abilityToJson a) = true := by
  cases a with
  | superuser => decide
  | structured ns segs =>
    unfold safeAbility at ha
    simp only [Bool.and_eq_true, List.all_eq_true] at ha
    obtain ⟨hns, hsegs⟩ := ha
    unfold abilityToJson
    simp +decide [JsValue.safe, safeFields, hns, strList_safe segs hsegs]

theorem capabilityToJson_safe (c : Capability)
    (hc : safeCapability c = true) :
    JsValue.safe (capabilityToJson c) = true := by
  unfold safeCapability at hc
  simp only [Bool.and_eq_true] at hc
  obtain ⟨⟨h1, h2⟩, h3⟩ := hc
  unfold capabilityToJson resourcePointerToJson
  simp +decide [JsValue.safe, safeFields, h1, h2,
    abilityToJson_safe c.can h3]

theorem capList_safe (l : List Capability)
    (h : ∀ c ∈ l, safeCapability c = true) :
    safeList (l.map capabilityToJson) = true := by
  induction l with
  | nil => rw [List.map_nil, safeList]
  | cons c cs ih =>
    rw [List.map_cons, safeList]
    simp only [Bool.and_eq_true]
    exact ⟨capabilityToJson_safe c (h c (by simp)),
      ih (fun d hd => h d (by simp [hd]))⟩

theorem payloadToJson_safe (p : UcanPayload) (hp : safePayload p = true) :
    JsValue.safe (payloadToJson p) = true := by
  unfold safePayload at hp
  simp only [Bool.and_eq_true, List.all_eq_true] at hp
  obtain ⟨⟨⟨⟨⟨haud, hatt⟩, hfct⟩, hiss⟩, hnnc⟩, hprf⟩ := hp
  unfold payloadToJson
  rw [JsValue.safe]
  rw [safeFields_append, safeFields_append, safeFields_append,
    safeFields_append, safeFields_append]
  simp only [Bool.and_eq_true]
  refine ⟨⟨⟨⟨⟨?_, ?_⟩, ?_⟩, ?_⟩, ?_⟩, ?_⟩
  · simp +decide [safeFields, JsValue.safe, haud, capList_safe p.att hatt]
  · rcases hf : p.fct with _ | facts
    · simp [hf, safeFields]
    · rw [hf] at hfct
      replace hfct : safeList facts = true := by simpa using hfct
      simp +decide [hf, safeFields, JsValue.safe, hfct]
  · simp +decide [safeFields, JsValue.safe, hiss]
  · rcases hb : p.nbf with _ | nb
    · simp [hb, safeFields]
    · simp +decide [hb, safeFields, JsValue.safe]
  · rcases hn : p.nnc with _ | nn
    · simp [hn, safeFields]
    · rw [hn] at hnnc
      replace hnnc : safeString nn = true := by simpa using hnnc
      simp +decide [hn, safeFields, JsValue.safe, hnnc]
  · simp +decide [safeFields, JsValue.safe, strList_safe p.prf hprf]

/-! #### The duck-typed checks invert the JSON views -/

theorem jsonToHeader_headerToJson (h : UcanHeader) :
    jsonToHeader (headerToJson h) = some h := rfl

theorem mapM_jsStrVal (l : List String) :
    optionMapM jsStrVal (l.map JsValue.str) = some l := by
  induction l with
  | nil => rfl
  | cons s ss ih =>
    rw [List.map_cons, optionMapM, ih]
    rfl

theorem jsonToAbility_abilityToJson (a : Ability) :
    jsonToAbility (abilityToJson a) = some a := by
  cases a with
  | superuser => rfl
  | structured ns segs =>
    show (optionMapM jsStrVal (segs.map JsValue.str)).map
        (Ability.structured ns) = some (.structured ns segs)
    rw [mapM_jsStrVal]
    rfl

theorem jsonToCapability_capabilityToJson (c : Capability) :
    jsonToCapability (capabilityToJson c) = some c := by
  rcases c with ⟨rp, ab⟩
  show (match jsonToResourcePointer (resourcePointerToJson rp),
          jsonToAbility (abilityToJson ab) with
        | some r, some a2 => some (Capability.mk r a2)
        | _, _ => none) = some (Capability.mk rp ab)
  rw [jsonToAbility_abilityToJson]
  rfl

theorem mapM_jsonToCapability (l : List Capability) :
    optionMapM jsonToCapability (l.map capabilityToJson) = some l := by
  induction l with
  | nil => rfl
  | cons c cs ih =>
    rw [List.map_cons, optionMapM, ih, jsonToCapability_capabilityToJson]

theorem jsonToPayload_payloadToJson (p : UcanPayload) :
    jsonToPayload (payloadToJson p) = some p := by
  rcases p with ⟨aud, att, expVal, fct, iss, nbf, nnc, prf⟩
  rcases fct with _ | fl <;> rcases nbf with _ | nb <;> rcases nnc with _ | nn <;>
    simp [payloadToJson, jsonToPayload, getProp, List.lookup,
      mapM_jsonToCapability, mapM_jsStrVal]

theorem handleCompatibility_roundtrip (h : UcanHeader) (p : UcanPayload) :
    handleCompatibility (headerToJson h) (payloadToJson p) = .ok (h, p) := by
  unfold handleCompatibility
  rw [jsonToHeader_headerToJson, jsonToPayload_payloadToJson]

/-! #### Splitting the encoded token -/

theorem encodeJson_no_dot (j : JsValue) (hsafe : JsValue.safe j = true) :
    '.' ∉ (encodeJson j).data := by
  intro hmem
  have hbytes : ∀ b ∈ utf8Encode (jsonStringifyChars j), b < 256 := by
    intro b hb
    unfold utf8Encode at hb
    rcases List.mem_map.mp hb with ⟨c, hc, rfl⟩
    have := jsonStringify_ascii j hsafe c hc
    omega
  have hmem2 : '.' ∈ b64urlEncodeBytes (utf8Encode (jsonStringifyChars j)) :=
    hmem
  rcases b64urlEncodeBytes_mem _ hbytes '.' hmem2 with ⟨k, hk, heq⟩
  exact b64Char_ne_dot k hk heq.symm

theorem jsSplitDot_encode (u : Ucan) (hsafe : safeUcan u = true) :
    jsSplitDot (encode u) =
      [encodeHeader u.header, encodePayload u.payload, u.signature] := by
  unfold safeUcan at hsafe
  simp only [Bool.and_eq_true, List.all_eq_true] at hsafe
  obtain ⟨⟨hh, hp⟩, hsig⟩ := hsafe
  have hhd : '.' ∉ (encodeHeader u.header).data :=
    encodeJson_no_dot (headerToJson u.header) (headerToJson_safe u.header hh)
  have hpd : '.' ∉ (encodePayload u.payload).data :=
    encodeJson_no_dot (payloadToJson u.payload) (payloadToJson_safe u.payload hp)
  have hsd : '.' ∉ u.signature.data := by
    intro hmem
    have := hsig '.' hmem
    simp at this
  unfold jsSplitDot encode
  rw [String.data_append, String.data_append, String.data_append,
    String.data_append]
  rw [show ("." : String).data = ['.'] from rfl]
  rw [List.append_assoc, List.append_assoc, List.append_assoc,
    List.singleton_append, List.singleton_append]
  rw [splitOnDotChars_append _ _ hhd, splitOnDotChars_append _ _ hpd,
    splitOnDotChars_no_dot _ hsd]
  rfl

/-- Claim C4: for every valid header/payload pair (all strings printable
ASCII, signature segment dot-free), decoding an encoded token recovers
the original token: `parseHeader (encodeHeader h)` yields exactly the
header's JSON value and `parsePayload (encodePayload p)` the payload's,
the compatibility layer maps those JSON values back to the original typed
header and payload, and the three-segment encoding splits back into
exactly the original segments — hence decoding the three-segment encoding
of a token yields a token equal to the original. -/
theorem token_roundtrip (u : Ucan) (hsafe : safeUcan u = true) :
    parseHeader (encodeHeader u.header) = .ok (headerToJson u.header) ∧
    parsePayload (encodePayload u.payload) = .ok (payloadToJson u.payload) ∧
    jsonToHeader (headerToJson u.header) = some u.header ∧
    jsonToPayload (payloadToJson u.payload) = some u.payload ∧
    handleCompatibility (headerToJson u.header) (payloadToJson u.payload) =
      .ok (u.header, u.payload) ∧
    jsSplitDot (encode u) =
      [encodeHeader u.header, encodePayload u.payload, u.signature] := by
  have hs := hsafe
  unfold safeUcan at hs
  simp only [Bool.and_eq_true] at hs
  obtain ⟨⟨hh, hp⟩, _⟩ := hs
  exact ⟨parseHeader_encodeJson _ (headerToJson_safe u.header hh),
    parsePayload_encodeJson _ (payloadToJson_safe u.payload hp),
    jsonToHeader_headerToJson u.header,
    jsonToPayload_payloadToJson u.payload,
    handleCompatibility_roundtrip u.header u.payload,
    jsSplitDot_encode u hsafe⟩

/-- Witness for C4 at the concrete sample token. -/
theorem token_roundtrip_witness :
    parseHeader (encodeHeader sampleUcan.header) =
      .ok (headerToJson sampleUcan.header) ∧
    parsePayload (encodePayload sampleUcan.payload) =
      .ok (payloadToJson sampleUcan.payload) ∧
    jsonToHeader (headerToJson sampleUcan.header) = some sampleUcan.header ∧
    jsonToPayload (payloadToJson sampleUcan.payload) =
      some sampleUcan.payload ∧
    handleCompatibility (headerToJson sampleUcan.header)
      (payloadToJson sampleUcan.payload) =
      .ok (sampleUcan.header, sampleUcan.payload) ∧
    jsSplitDot (encode sampleUcan) =
      [encodeHeader sampleUcan.header, encodePayload sampleUcan.payload,
        sampleUcan.signature] :=
  token_roundtrip sampleUcan (by decide)

end TsUcan
